import Mathlib

/-!
Verification of the edit-planning core of the `reflect` repository.

The definitions below are a shallow embedding of the Python sources:
  * `src/backend/src/edit_planner/service.py` (namespace `Backend`),
  * `src/src/edit_planner/service.py` (namespace `Legacy`),
  * `src/backend/src/edit_executor/service.py` (namespace `Executor`).
Python `float` arithmetic is modelled with exact rationals (`ℚ`); the claims
under study only involve orderings and algebraic identities on these values.
External oracle calls (the LLM agents) are modelled as function parameters
indexed by `clip_index`, which is faithful because every clip is classified
once and asked for cut points once per run.
-/

namespace Reflect

/-- `ClipType` from `src/src/edit_planner/schemas/cut_decision.py`. -/
inductive ClipType
| DIALOGUE
| BROLL
deriving DecidableEq, Repr

/-- Python `StrEnum` value of a `ClipType` (`auto()` lower-cases the name). -/
def ClipType.value : ClipType → String
| .DIALOGUE => "dialogue"
| .BROLL => "broll"

/-- `AudioMixLevel` from `cut_decision.py`. -/
inductive AudioMixLevel
| FULL
| DAMPENED
| MUTED
deriving DecidableEq, Repr

/-- `ClipClassification` from `clip_agents/dialogue_classifier.py`. -/
inductive ClipClassification
| DIALOGUE
| BROLL
deriving DecidableEq, Repr

/-- `QualityDecision` from `clip_agents/quality_filter.py`. -/
inductive QualityDecision
| INCLUDE
| SKIP
deriving DecidableEq, Repr

/-- `TranscriptSegment` from `asset_annotator/schemas/ear.py`. -/
structure TranscriptSegment where
  text : String
  start_seconds : ℚ
  end_seconds : ℚ
  confidence : ℚ
deriving DecidableEq, Repr

/-- `SemanticValidRange` from `ear.py`. -/
structure SemanticValidRange where
  start_seconds : ℚ
  end_seconds : ℚ
  transcript_segments : List TranscriptSegment
deriving DecidableEq, Repr

/-- `EarAnalysis` from `ear.py`. -/
structure EarAnalysis where
  has_speech : Bool
  full_transcript : String
  valid_ranges : List SemanticValidRange
deriving DecidableEq, Repr

/-- A stable window of the eye (visual stability) analysis; only the fields the
planner reads are carried. -/
structure StableWindow where
  start_seconds : ℚ
  end_seconds : ℚ
  tripod_score : ℚ
deriving DecidableEq, Repr

/-- `EyeAnalysis`: the planner only reads `stable_windows`. -/
structure EyeAnalysis where
  stable_windows : List StableWindow
deriving DecidableEq, Repr

/-- `BeatInfo` from `asset_annotator/schemas/metronome.py`. -/
structure BeatInfo where
  time_seconds : ℚ
  strength : ℚ
deriving DecidableEq, Repr

/-- `ChopPoint` from `metronome.py`. -/
structure ChopPoint where
  time_seconds : ℚ
  strength : ℚ
  is_downbeat : Bool
deriving DecidableEq, Repr

/-- `MetronomeAnalysis` from `metronome.py`; only the fields read by the
planner (`beat_grid`, `chop_points`) are carried. -/
structure MetronomeAnalysis where
  beat_grid : List BeatInfo
  chop_points : List ChopPoint
deriving DecidableEq, Repr

/-- Models `VideoAssetAnnotation` from `asset_annotator/schemas/manifest.py`
(the `asset_type` tag, irrelevant to the planner, is omitted). -/
structure VideoAsset where
  file_path : String
  duration_seconds : ℚ
  ear_analysis : EarAnalysis
  eye_analysis : EyeAnalysis
  rotation_degrees : ℤ
deriving DecidableEq, Repr

/-- Models `AudioAssetAnnotation` from `manifest.py`. -/
structure AudioAsset where
  file_path : String
  duration_seconds : ℚ
  metronome_analysis : MetronomeAnalysis
deriving DecidableEq, Repr

/-- `AssetManifest` from `manifest.py`. -/
structure AssetManifest where
  video_assets : List VideoAsset
  audio_assets : List AudioAsset
deriving DecidableEq, Repr

/-- `PacingProfile` from `style_extractor/schemas/style_profile.py`; only the
field the planner reads is carried. -/
structure PacingProfile where
  avg_clip_duration_seconds : ℚ
deriving DecidableEq, Repr

/-- `StyleProfile`: the two fields the backend planner reads, plus the
`beats_per_cut` override the service accesses (spec §3: an optional fixed
"beats-per-cut" override). -/
structure StyleProfile where
  pacing : PacingProfile
  prefer_beat_alignment : Bool
  beats_per_cut : Option ℕ
deriving DecidableEq, Repr

/-- `ClipForAssembly` from `edit_planner/schemas/assembly_input.py`. -/
structure ClipForAssembly where
  clip_index : ℕ
  file_path : String
  duration_seconds : ℚ
  has_speech : Bool
  transcript : String
  speech_confidence : Option ℚ
  speech_start_seconds : Option ℚ
  speech_end_seconds : Option ℚ
  best_stable_window_start : Option ℚ
  best_stable_window_end : Option ℚ
  tripod_score : Option ℚ
  rotation_degrees : ℤ
deriving DecidableEq, Repr

/-- `ChunkContext` from `assembly_input.py`. -/
structure ChunkContext where
  chunk_index : ℕ
  chunk_start_seconds : ℚ
  chunk_end_seconds : ℚ
  chunk_duration_seconds : ℚ
  clips_in_chunk : List ClipForAssembly
  previous_chunk_end_clip_index : Option ℕ
deriving DecidableEq, Repr

/-- `CutPointDecision` from `clip_agents/cut_point_agent.py`. -/
structure CutPointDecision where
  source_in_seconds : ℚ
  source_out_seconds : ℚ
  reasoning : String
deriving DecidableEq, Repr

/-- `DialogueClassifierResult` (backend variant: classification + reasoning). -/
structure DialogueClassifierResult where
  classification : ClipClassification
  reasoning : String
deriving DecidableEq, Repr

/-- `QualityFilterResult` from `clip_agents/quality_filter.py`. -/
structure QualityFilterResult where
  decision : QualityDecision
  confidence : ℚ
  reasoning : String
deriving DecidableEq, Repr

/-- `CutDecision` from `cut_decision.py` (plus the `rotation_degrees` field the
backend constructor passes). -/
structure CutDecision where
  source_file_path : String
  clip_type : ClipType
  clip_index : ℕ
  source_in_seconds : ℚ
  source_out_seconds : ℚ
  timeline_in_seconds : ℚ
  timeline_out_seconds : ℚ
  speed_factor : ℚ
  audio_level : AudioMixLevel
  chunk_index : ℕ
  reasoning : String
  rotation_degrees : Option ℤ
deriving DecidableEq, Repr

/-- `ChunkDecisions` from `cut_decision.py`. -/
structure ChunkDecisions where
  chunk_index : ℕ
  chunk_start_seconds : ℚ
  chunk_end_seconds : ℚ
  decisions : List CutDecision
deriving DecidableEq, Repr

/-- `AudioTrackInfo` from `cut_decision.py`. -/
structure AudioTrackInfo where
  file_path : String
  duration_seconds : ℚ
  source_in_seconds : ℚ
  source_out_seconds : ℚ
  timeline_in_seconds : ℚ
  volume : ℚ
deriving DecidableEq, Repr

/-- `TimelineBlueprint` from `cut_decision.py`. -/
structure TimelineBlueprint where
  total_duration_seconds : ℚ
  frame_rate : ℚ
  chunk_decisions : List ChunkDecisions
  audio_tracks : List AudioTrackInfo
deriving DecidableEq, Repr

/-- The derived view `TimelineBlueprint.all_decisions`:
`[d for chunk in self.chunk_decisions for d in chunk.decisions]`. -/
def TimelineBlueprint.all_decisions (bp : TimelineBlueprint) : List CutDecision :=
  (bp.chunk_decisions.map (·.decisions)).flatten

/-- `AssemblyInput` from `assembly_input.py`. -/
structure AssemblyInput where
  manifest : AssetManifest
  style_profile : Option StyleProfile
  target_frame_rate : ℚ
deriving DecidableEq, Repr

/-- Python `int()` applied to a rational: truncation toward zero. -/
def pyInt (q : ℚ) : ℤ := if 0 ≤ q then ⌊q⌋ else ⌈q⌉

/-- Python `min` over a nonempty list of numbers (`d` is returned for `[]`,
which does not occur at call sites). -/
def listMinD (l : List ℚ) (d : ℚ) : ℚ :=
  match l with
  | [] => d
  | x :: xs => xs.foldl min x

/-- Python `max` over a nonempty list of numbers. -/
def listMaxD (l : List ℚ) (d : ℚ) : ℚ :=
  match l with
  | [] => d
  | x :: xs => xs.foldl max x

/-- Python `min(beats, key=lambda b: abs(b - t))`: the first element of the
list minimising the absolute distance to `t` (Python's `min` keeps the earliest
of several minimisers). -/
def argminAbs (t : ℚ) (l : List ℚ) (d : ℚ) : ℚ :=
  match l with
  | [] => d
  | b :: bs => bs.foldl (fun best x => if |x - t| < |best - t| then x else best) b

namespace Backend

/-- Chunk-boundary construction, `assemble` lines 116–128 of
`src/backend/src/edit_planner/service.py`.  Python truthiness: a `None` or `0`
`beats_per_cut`, or an empty beat grid, selects phrase mode. -/
def chunkBoundaries (style : Option StyleProfile) (beat_grid : List BeatInfo)
    (chop_points : List ChopPoint) (music_duration : ℚ) : List ℚ :=
  match style.bind (·.beats_per_cut), beat_grid with
  | some (n + 1), _ :: _ =>
      ([0] ++ beat_grid.enum.filterMap (fun p =>
        if 0 < p.1 ∧ p.1 % (n + 1) = 0 then some p.2.time_seconds else none))
        ++ [music_duration]
  | _, _ =>
      ([0] ++ chop_points.map (·.time_seconds)) ++ [music_duration]

/-- `EditPlannerService._prepare_clips`. -/
def prepareClips (video_assets : List VideoAsset) : List ClipForAssembly :=
  video_assets.enum.map (fun p =>
    let idx := p.1
    let asset := p.2
    let speech_start : Option ℚ :=
      (asset.ear_analysis.valid_ranges.head?).map (·.start_seconds)
    let speech_end : Option ℚ :=
      (asset.ear_analysis.valid_ranges.getLast?).map (·.end_seconds)
    let all_segments : List TranscriptSegment :=
      (asset.ear_analysis.valid_ranges.map (·.transcript_segments)).flatten
    let speech_confidence : Option ℚ :=
      if asset.ear_analysis.valid_ranges = [] then none
      else if all_segments = [] then none
      else some ((all_segments.map (·.confidence)).sum / all_segments.length)
    let best_window : Option StableWindow :=
      match asset.eye_analysis.stable_windows with
      | [] => none
      | w :: ws => some (ws.foldl
          (fun best x => if best.tripod_score < x.tripod_score then x else best) w)
    { clip_index := idx
      file_path := asset.file_path
      duration_seconds := asset.duration_seconds
      has_speech := asset.ear_analysis.has_speech
      transcript := asset.ear_analysis.full_transcript
      speech_confidence := speech_confidence
      speech_start_seconds := speech_start
      speech_end_seconds := speech_end
      best_stable_window_start := best_window.map (·.start_seconds)
      best_stable_window_end := best_window.map (·.end_seconds)
      tripod_score := best_window.map (·.tripod_score)
      rotation_degrees := asset.rotation_degrees })

/-- `EditPlannerService._snap_to_nearest_beat` (always snaps, no tolerance). -/
def snapToNearestBeat (time_seconds : ℚ) (beats : List ℚ) : ℚ :=
  match beats with
  | [] => time_seconds
  | _ => argminAbs time_seconds beats time_seconds

/-- `EditPlannerService._snap_to_next_beat`: the first beat at or after
`time_seconds - 0.05` (the "small tolerance" in the source), falling back to
the last beat when none exists. -/
def snapToNextBeat (time_seconds : ℚ) (beats : List ℚ) : ℚ :=
  match beats with
  | [] => time_seconds
  | _ =>
    let future_beats := beats.filter (fun b => time_seconds - 0.05 ≤ b)
    match future_beats with
    | [] => listMaxD beats time_seconds
    | _ => listMinD future_beats time_seconds

/-- The cut-point clamp of `_create_cut_decisions` (lines 382–386): clamp
`source_in` to `≥ 0` and `source_out` to the clip duration, and replace a
degenerate window by `source_in + 0.5`, clamped to the clip duration.
Returns `(source_in, source_out)`. -/
def clampCutPoints (cut_points : CutPointDecision) (duration : ℚ) : ℚ × ℚ :=
  let source_in := max 0 cut_points.source_in_seconds
  let source_out := min duration cut_points.source_out_seconds
  let source_out :=
    if source_out ≤ source_in then min duration (source_in + 0.5)
    else source_out
  (source_in, source_out)

/-- The beat-alignment block of `_create_cut_decisions` (lines 391–413): snap
`timeline_in` to the beat nearest the cursor, snap the ideal `timeline_out` to
the next beat, and apply both only when the snapped span is at least `0.25` s,
recomputing `source_out` (clamped to the clip duration) to match.  Returns
`(timeline_in, source_out, clip_duration)`. -/
def beatAlign (chunk_beats : List ℚ) (duration source_in source_out clip_duration cur : ℚ) :
    ℚ × ℚ × ℚ :=
  let timeline_in_beat := snapToNearestBeat cur chunk_beats
  let timeline_out_ideal := timeline_in_beat + clip_duration
  let timeline_out_beat := snapToNextBeat timeline_out_ideal chunk_beats
  if (0.25 : ℚ) ≤ timeline_out_beat - timeline_in_beat then
    let new_clip_duration := timeline_out_beat - timeline_in_beat
    let source_out' := min duration (source_in + new_clip_duration)
    (timeline_in_beat, source_out', source_out' - source_in)
  else (cur, source_out, clip_duration)

/-- One iteration of the sequential decision loop of
`EditPlannerService._create_cut_decisions` (lines 373–438): clamp the oracle's
cut points, optionally beat-align, emit the `CutDecision` and advance the
cursor. -/
def decideClip (chunk_index : ℕ) (align_to_beats : Bool) (chunk_beats : List ℚ)
    (is_dialogue : Bool) (cut_points : CutPointDecision) (clip : ClipForAssembly)
    (cur : ℚ) : CutDecision × ℚ :=
  let clip_type := if is_dialogue then ClipType.DIALOGUE else ClipType.BROLL
  let sc := clampCutPoints cut_points clip.duration_seconds
  let source_in := sc.1
  let clip_duration := sc.2 - source_in
  let state :=
    if align_to_beats = true ∧ chunk_beats ≠ [] ∧ is_dialogue = false then
      beatAlign chunk_beats clip.duration_seconds source_in sc.2 clip_duration cur
    else (cur, sc.2, clip_duration)
  let timeline_in := state.1
  let source_out := state.2.1
  let clip_duration := state.2.2
  let timeline_out := timeline_in + clip_duration
  let audio_level := if is_dialogue then AudioMixLevel.FULL else AudioMixLevel.MUTED
  ({ source_file_path := clip.file_path
     clip_type := clip_type
     clip_index := clip.clip_index
     source_in_seconds := source_in
     source_out_seconds := source_out
     timeline_in_seconds := timeline_in
     timeline_out_seconds := timeline_out
     speed_factor := 1
     audio_level := audio_level
     chunk_index := chunk_index
     reasoning := clip_type.value ++ ": " ++ cut_points.reasoning
     rotation_degrees := some clip.rotation_degrees }, timeline_out)

/-- The sequential fold of `_create_cut_decisions` over the passing clips
(the quality filter of `_run_chunk_agents_async` is hard-coded to `INCLUDE`
for every clip, so every clip of the chunk passes). -/
def cutDecisionsGo (chunk_index : ℕ) (align_to_beats : Bool) (chunk_beats : List ℚ)
    (classify : ℕ → DialogueClassifierResult) (cutO : ℕ → CutPointDecision) :
    List ClipForAssembly → ℚ → List CutDecision
  | [], _ => []
  | clip :: rest, cur =>
    let is_dialogue := (classify clip.clip_index).classification = ClipClassification.DIALOGUE
    let r := decideClip chunk_index align_to_beats chunk_beats is_dialogue
      (cutO clip.clip_index) clip cur
    r.1 :: cutDecisionsGo chunk_index align_to_beats chunk_beats classify cutO rest r.2

/-- `EditPlannerService._create_cut_decisions`. -/
def createCutDecisions (ctx : ChunkContext) (timeline_cursor : ℚ)
    (style : Option StyleProfile) (chunk_beats : List ℚ)
    (classify : ℕ → DialogueClassifierResult) (cutO : ℕ → CutPointDecision) :
    List CutDecision :=
  let align_to_beats := match style with
    | some s => s.prefer_beat_alignment
    | none => true
  cutDecisionsGo ctx.chunk_index align_to_beats chunk_beats classify cutO
    ctx.clips_in_chunk timeline_cursor

/-- `EditPlannerService._process_chunk`. -/
def processChunk (ctx : ChunkContext) (timeline_cursor : ℚ)
    (style : Option StyleProfile) (chunk_beats : List ℚ)
    (classify : ℕ → DialogueClassifierResult) (cutO : ℕ → CutPointDecision) :
    ChunkDecisions :=
  { chunk_index := ctx.chunk_index
    chunk_start_seconds := ctx.chunk_start_seconds
    chunk_end_seconds := ctx.chunk_end_seconds
    decisions := createCutDecisions ctx timeline_cursor style chunk_beats classify cutO }

/-- Per-chunk clip allocation of `assemble` (lines 179–195): the pacing target
`max(1, int(chunk_duration / target_cut_duration))`, capped by
`max(1, remaining_clips // remaining_chunks)`, capped by `remaining_clips`. -/
def allocCount (remaining_clips remaining_chunks : ℕ)
    (chunk_duration target_cut_duration : ℚ) : ℕ :=
  let target_clip_count := (max 1 (pyInt (chunk_duration / target_cut_duration))).toNat
  let clips_per_chunk := max 1 (remaining_clips / remaining_chunks)
  let target_clip_count := min target_clip_count clips_per_chunk
  min target_clip_count remaining_clips

/-- One iteration of the chunk loop of `assemble` (lines 158–222).  The state
is `(chunk_decisions_list, timeline_cursor, clip_cursor)`. -/
def assembleStep (clips : List ClipForAssembly) (boundaries : List ℚ)
    (beat_grid : List BeatInfo) (style : Option StyleProfile) (total_chunks : ℕ)
    (classify : ℕ → DialogueClassifierResult) (cutO : ℕ → CutPointDecision)
    (st : List ChunkDecisions × ℚ × ℕ) (chunk_idx : ℕ) :
    List ChunkDecisions × ℚ × ℕ :=
  let acc := st.1
  let timeline_cursor := st.2.1
  let clip_cursor := st.2.2
  let chunk_start := boundaries.getD chunk_idx 0
  let chunk_end := boundaries.getD (chunk_idx + 1) 0
  let chunk_duration := chunk_end - chunk_start
  let chunk_beats := (beat_grid.map (·.time_seconds)).filter
    (fun t => decide (chunk_start - 2 ≤ t ∧ t ≤ chunk_end + 2))
  let remaining_clips := clips.length - clip_cursor
  if remaining_clips = 0 then st
  else
    let target_cut_duration := match style with
      | some s => s.pacing.avg_clip_duration_seconds
      | none => 3
    let clip_count := allocCount remaining_clips (total_chunks - chunk_idx)
      chunk_duration target_cut_duration
    let chunk_clips := (clips.drop clip_cursor).take clip_count
    let clip_cursor' := clip_cursor + clip_count
    let ctx : ChunkContext :=
      { chunk_index := chunk_idx
        chunk_start_seconds := chunk_start
        chunk_end_seconds := chunk_end
        chunk_duration_seconds := chunk_duration
        clips_in_chunk := chunk_clips
        previous_chunk_end_clip_index :=
          if clip_count < clip_cursor' then some (clip_cursor' - clip_count - 1) else none }
    let cd := processChunk ctx timeline_cursor style chunk_beats classify cutO
    let cursor' :=
      if cd.decisions = [] then timeline_cursor
      else listMaxD (cd.decisions.map (·.timeline_out_seconds)) timeline_cursor
    (acc ++ [cd], cursor', clip_cursor')

/-- The chunk loop of `assemble` (lines 158–222) as a fold over the chunk
indices, starting from the state `([], 0.0, 0)`. -/
def assembleFold (clips : List ClipForAssembly) (boundaries : List ℚ)
    (beat_grid : List BeatInfo) (style : Option StyleProfile) (total_chunks : ℕ)
    (classify : ℕ → DialogueClassifierResult) (cutO : ℕ → CutPointDecision) :
    List ChunkDecisions × ℚ × ℕ :=
  (List.range total_chunks).foldl
    (assembleStep clips boundaries beat_grid style total_chunks classify cutO)
    ([], 0, 0)

/-- `EditPlannerService.assemble`, parameterised by the classification and
cut-point oracles. -/
def assemble (inp : AssemblyInput) (classify : ℕ → DialogueClassifierResult)
    (cutO : ℕ → CutPointDecision) : Except String TimelineBlueprint :=
  match inp.manifest.audio_assets with
  | [] => .error "No audio assets found in manifest"
  | music :: _ =>
    let chop_points := music.metronome_analysis.chop_points
    let beat_grid := music.metronome_analysis.beat_grid
    let boundaries := chunkBoundaries inp.style_profile beat_grid chop_points
      music.duration_seconds
    let clips := prepareClips inp.manifest.video_assets
    let total_chunks := boundaries.length - 1
    let final := assembleFold clips boundaries beat_grid inp.style_profile
      total_chunks classify cutO
    .ok
      { total_duration_seconds := final.2.1
        frame_rate := inp.target_frame_rate
        chunk_decisions := final.1
        audio_tracks := inp.manifest.audio_assets.map (fun a =>
          { file_path := a.file_path
            duration_seconds := a.duration_seconds
            source_in_seconds := 0
            source_out_seconds := min a.duration_seconds final.2.1
            timeline_in_seconds := 0
            volume := 1 }) }

end Backend

namespace Legacy

/-- `DialogueClassifierResult` of the legacy variant
(`src/src/edit_planner/clip_agents/dialogue_classifier.py`): it also carries a
confidence. -/
structure ClassifierResult where
  classification : ClipClassification
  confidence : ℚ
  reasoning : String
deriving DecidableEq, Repr

/-- Python `x or default` on an optional float: `None` and `0.0` are falsy. -/
def pyOr (x : Option ℚ) (default : ℚ) : ℚ :=
  match x with
  | none => default
  | some v => if v = 0 then default else v

/-- One iteration of the loop of the legacy
`EditPlannerService._create_cut_decisions`
(`src/src/edit_planner/service.py` lines 187–255): quality gate, dialogue /
stable-window / fallback cut-point policy, decision emission.  Returns `none`
when the quality filter skips the clip (the cursor does not advance).
The numeric confidence formatting inside the Python f-string reasoning text is
elided. -/
def decideClip (chunk_index : ℕ) (quality : QualityFilterResult)
    (cls : ClassifierResult) (clip : ClipForAssembly) (cur : ℚ) :
    Option (CutDecision × ℚ) :=
  if quality.decision = QualityDecision.SKIP then none
  else
    let is_dialogue := cls.classification = ClipClassification.DIALOGUE
    let clip_type := if is_dialogue then ClipType.DIALOGUE else ClipType.BROLL
    let choice : ℚ × ℚ × AudioMixLevel × String :=
      if is_dialogue = true ∧ clip.speech_start_seconds ≠ none then
        let source_in := max 0 (pyOr clip.speech_start_seconds 0 - 0.2)
        let source_out := min clip.duration_seconds
          (pyOr clip.speech_end_seconds clip.duration_seconds + 0.2)
        (source_in, source_out, AudioMixLevel.FULL, "Dialogue: " ++ cls.reasoning)
      else if clip.best_stable_window_start ≠ none then
        let source_in := clip.best_stable_window_start.getD 0
        let source_out := pyOr clip.best_stable_window_end clip.duration_seconds
        (source_in, source_out, AudioMixLevel.MUTED, "B-roll: " ++ cls.reasoning)
      else
        (0, clip.duration_seconds, AudioMixLevel.MUTED,
          "B-roll fallback - using full clip duration")
    let source_in := choice.1
    let source_out := choice.2.1
    let clip_duration := source_out - source_in
    let timeline_out := cur + clip_duration
    some
      ({ source_file_path := clip.file_path
         clip_type := clip_type
         clip_index := clip.clip_index
         source_in_seconds := source_in
         source_out_seconds := source_out
         timeline_in_seconds := cur
         timeline_out_seconds := timeline_out
         speed_factor := 1
         audio_level := choice.2.2.1
         chunk_index := chunk_index
         reasoning := choice.2.2.2
         rotation_degrees := none }, timeline_out)

/-- The legacy `_create_cut_decisions` loop over the clips of a chunk,
with the quality-filter and classifier agents as oracles indexed by
`clip_index`. -/
def cutDecisionsGo (chunk_index : ℕ) (qualityO : ℕ → QualityFilterResult)
    (classifyO : ℕ → ClassifierResult) :
    List ClipForAssembly → ℚ → List CutDecision
  | [], _ => []
  | clip :: rest, cur =>
    match decideClip chunk_index (qualityO clip.clip_index)
        (classifyO clip.clip_index) clip cur with
    | none => cutDecisionsGo chunk_index qualityO classifyO rest cur
    | some r => r.1 :: cutDecisionsGo chunk_index qualityO classifyO rest r.2

end Legacy

namespace Executor

/-- A volume segment `(start, end, volume)` of the ducking walk in
`EditExecutorService._create_audio_track_with_ducking`. -/
abbrev Seg := ℚ × ℚ × ℚ

/-- The merge fold of `EditExecutorService._merge_overlapping_sections`
(lines 273–285): `(cs, ce)` is the section under construction. -/
def mergeLoop (cs ce : ℚ) : List (ℚ × ℚ) → List (ℚ × ℚ)
  | [] => [(cs, ce)]
  | (s, e) :: rest =>
    if s ≤ ce then mergeLoop cs (max ce e) rest
    else (cs, ce) :: mergeLoop s e rest

/-- `EditExecutorService._merge_overlapping_sections`: sort by start time,
then merge overlapping or touching sections. -/
def mergeOverlappingSections (sections : List (ℚ × ℚ)) : List (ℚ × ℚ) :=
  match sections.mergeSort (fun a b => decide (a.1 ≤ b.1)) with
  | [] => []
  | (s, e) :: rest => mergeLoop s e rest

/-- `audio_start` of `_create_audio_track_with_ducking` (line 187). -/
def audioStart (audio : AudioTrackInfo) : ℚ := audio.timeline_in_seconds

/-- `audio_end` of `_create_audio_track_with_ducking` (line 188):
`source_out - source_in + audio_start`. -/
def audioEnd (audio : AudioTrackInfo) : ℚ :=
  audio.source_out_seconds - audio.source_in_seconds + audio.timeline_in_seconds

/-- The segment-building walk of `_create_audio_track_with_ducking`
(lines 195–217): for each merged dialogue section, clip it to the audio
bounds, skip it when it lies outside the track, emit a full-volume segment for
the gap before it and a `0.3`-volume segment for the section itself, and
advance the cursor; after the walk, emit the full-volume tail.  The recursion
carries the cursor (`current_pos`), so the tail emission is the base case. -/
def duckLoop (audio_start audio_end : ℚ) :
    List (ℚ × ℚ) → ℚ → List Seg
  | [], current_pos =>
    if current_pos < audio_end then [(current_pos, audio_end, 1)] else []
  | (s, e) :: rest, current_pos =>
    let d_start := max s audio_start
    let d_end := min e audio_end
    if audio_end ≤ d_start ∨ d_end ≤ audio_start then
      duckLoop audio_start audio_end rest current_pos
    else
      ((if current_pos < d_start then [(current_pos, d_start, 1)] else []) ++
        (if d_start < d_end then [(d_start, d_end, 0.3)] else [])) ++
        duckLoop audio_start audio_end rest d_end

/-- The volume-segment list computed by
`EditExecutorService._create_audio_track_with_ducking` for one audio track
(lines 186–221), before the segments are realised as OTIO sub-clips:
`audio_end` is `timeline_in + (source_out - source_in)`, and when no segment
was emitted the whole track is emitted at full volume. -/
def buildDuckSegments (audio : AudioTrackInfo)
    (dialogue_sections : List (ℚ × ℚ)) : List Seg :=
  let audio_start := audioStart audio
  let audio_end := audioEnd audio
  let merged := mergeOverlappingSections dialogue_sections
  let segs := duckLoop audio_start audio_end merged audio_start
  if segs = [] then [(audio_start, audio_end, 1)] else segs

end Executor

namespace Retry

/-- Outcome of one oracle attempt: the call either returns a value or raises,
and a raised error either matches the transient pattern
(`"Connection"`/`"rate"`/`"429"` in the message) or not. -/
inductive Outcome (T : Type) where
| success (value : T)
| failure (transient : Bool)
deriving DecidableEq

/-- How a run of `_with_retry` can fail. -/
inductive RetryFailure where
| raised (transient : Bool)
| loopExit
deriving DecidableEq, Repr

/-- The attempt loop of `_with_retry` (`src/backend/src/edit_planner/service.py`
lines 31–52).  `fuel` is the number of remaining iterations of
`for attempt in range(max_retries)`; the returned list records the backoff
sleeps (`2 ** attempt` seconds) performed between attempts.  A transient
failure retries only when `attempt < max_retries - 1` (i.e. more fuel
remains); otherwise, and for every non-transient failure, the error is
re-raised at once. -/
def retryAux {T : Type} (oracle : ℕ → Outcome T) (attempt : ℕ) :
    ℕ → Except RetryFailure T × List ℕ
  | 0 => (.error .loopExit, [])
  | fuel + 1 =>
    match oracle attempt with
    | .success v => (.ok v, [])
    | .failure transient =>
      if transient = true ∧ 0 < fuel then
        let r := retryAux oracle (attempt + 1) fuel
        (r.1, 2 ^ attempt :: r.2)
      else (.error (.raised transient), [])

/-- `_with_retry coro_func` with `max_retries` attempts, starting at attempt
`0`. -/
def withRetry {T : Type} (max_retries : ℕ) (oracle : ℕ → Outcome T) :
    Except RetryFailure T × List ℕ :=
  retryAux oracle 0 max_retries

end Retry

/-! ### Claim-level predicates and concrete fixtures -/

/-- The partition invariant claimed for a blueprint: the flattened decisions
are sorted by `timeline_in_seconds`, adjacent decisions meet exactly
(`timeline_out = next timeline_in`), the first decision starts at `0`, the
last decision ends at `total_duration_seconds`, and an empty run has total
duration `0`. -/
def partitionOk (bp : TimelineBlueprint) : Prop :=
  List.Sorted (fun a b => a.timeline_in_seconds ≤ b.timeline_in_seconds)
    bp.all_decisions ∧
  List.Chain' (fun a b => a.timeline_out_seconds = b.timeline_in_seconds)
    bp.all_decisions ∧
  (∀ d ∈ bp.all_decisions.head?, d.timeline_in_seconds = 0) ∧
  (∀ d ∈ bp.all_decisions.getLast?, d.timeline_out_seconds = bp.total_duration_seconds) ∧
  (bp.all_decisions = [] → bp.total_duration_seconds = 0)

instance (bp : TimelineBlueprint) : Decidable (partitionOk bp) := by
  unfold partitionOk
  infer_instance

/-- Loop invariant for the partition property: the decisions flattened so far
chain exactly, start at `0`, have nonnegative spans, and end at the current
timeline cursor (`0` when nothing was emitted yet). -/
def partInvState (st : List ChunkDecisions × ℚ × ℕ) : Prop :=
  List.Chain' (fun a b => a.timeline_out_seconds = b.timeline_in_seconds)
    ((st.1.map (·.decisions)).flatten) ∧
  (∀ d ∈ ((st.1.map (·.decisions)).flatten).head?, d.timeline_in_seconds = 0) ∧
  (∀ d ∈ (st.1.map (·.decisions)).flatten,
    d.timeline_in_seconds ≤ d.timeline_out_seconds) ∧
  (∀ d ∈ ((st.1.map (·.decisions)).flatten).getLast?,
    d.timeline_out_seconds = st.2.1) ∧
  ((st.1.map (·.decisions)).flatten = [] → st.2.1 = 0)

/-- Modelled from the spec: the per-chunk allocation formula as the claim
words it — `max(1, floor(chunk_duration / target_cut_duration))` capped by
`floor(remaining_clips / remaining_segments)` (the cap itself is *not*
floored at one).  For comparison with `Backend.allocCount`. -/
def claimAllocCount (remaining_clips remaining_chunks : ℕ)
    (chunk_duration target_cut_duration : ℚ) : ℕ :=
  min ((max 1 (pyInt (chunk_duration / target_cut_duration))).toNat)
    (remaining_clips / remaining_chunks)

/-- `tilesFromTo a b segs`: the segments exactly tile the interval `[a, b]` —
the first starts at `a`, each segment ends where the next begins, and the last
ends at `b` (no gaps, no overlaps). -/
def tilesFromTo : ℚ → ℚ → List Executor.Seg → Prop
| a, b, [] => a = b
| a, b, s :: rest => s.1 = a ∧ a ≤ s.2.1 ∧ tilesFromTo s.2.1 b rest

instance tilesDec : (a : ℚ) → (b : ℚ) → (l : List Executor.Seg) →
    Decidable (tilesFromTo a b l)
| a, b, [] => inferInstanceAs (Decidable (a = b))
| a, b, s :: rest =>
  haveI : Decidable (tilesFromTo s.2.1 b rest) := tilesDec s.2.1 b rest
  inferInstanceAs (Decidable (s.1 = a ∧ a ≤ s.2.1 ∧ tilesFromTo s.2.1 b rest))

/-- The empty blueprint, used as the default when extracting a successful
run's result. -/
def emptyBlueprint : TimelineBlueprint :=
  { total_duration_seconds := 0, frame_rate := 0, chunk_decisions := [], audio_tracks := [] }

/-- The blueprint of a successful `assemble` run (the empty blueprint when the
run fails). -/
def runBlueprint (inp : AssemblyInput) (classify : ℕ → DialogueClassifierResult)
    (cutO : ℕ → CutPointDecision) : TimelineBlueprint :=
  (Backend.assemble inp classify cutO).toOption.getD emptyBlueprint

/-- Test oracle: classify every clip as B-roll. -/
def classifyBroll : ℕ → DialogueClassifierResult :=
  fun _ => { classification := .BROLL, reasoning := "r" }

/-- Test oracle: cut points `[0, 2]` for every clip. -/
def cutSimple : ℕ → CutPointDecision :=
  fun _ => { source_in_seconds := 0, source_out_seconds := 2, reasoning := "c" }

/-- A speech-free video asset fixture. -/
def videoNoSpeech (name : String) (dur : ℚ) : VideoAsset :=
  { file_path := name
    duration_seconds := dur
    ear_analysis := { has_speech := false, full_transcript := "", valid_ranges := [] }
    eye_analysis := { stable_windows := [] }
    rotation_degrees := 0 }

/-- A style profile with beat alignment disabled. -/
def wStyleOff : StyleProfile :=
  { pacing := { avg_clip_duration_seconds := 3 }
    prefer_beat_alignment := false
    beats_per_cut := none }

/-- Fixture input: two clips, one music track of 8 s with a chop point at 4 s,
beat alignment disabled. -/
def wInput : AssemblyInput :=
  { manifest :=
      { video_assets := [videoNoSpeech "v0" 10, videoNoSpeech "v1" 6]
        audio_assets := [
          { file_path := "m"
            duration_seconds := 8
            metronome_analysis :=
              { beat_grid := []
                chop_points := [{ time_seconds := 4, strength := 1, is_downbeat := true }] } }] }
    style_profile := some wStyleOff
    target_frame_rate := 60 }

/-- The first decision emitted by the two-clip fixture run (a concrete member
of its decision list). -/
def wFirstDecision : CutDecision :=
  ((runBlueprint wInput classifyBroll cutSimple).all_decisions).headD
    { source_file_path := ""
      clip_type := .BROLL
      clip_index := 0
      source_in_seconds := 0
      source_out_seconds := 0
      timeline_in_seconds := 0
      timeline_out_seconds := 0
      speed_factor := 1
      audio_level := .FULL
      chunk_index := 0
      reasoning := ""
      rotation_degrees := none }

/-- Fixture input for the beat-snap counterexample: one 10 s B-roll clip, one
4 s music track with beats at 1 s and 4 s, no style (so beat alignment
defaults to on). -/
def snapInput : AssemblyInput :=
  { manifest :=
      { video_assets := [videoNoSpeech "v0" 10]
        audio_assets := [
          { file_path := "m"
            duration_seconds := 4
            metronome_analysis :=
              { beat_grid := [{ time_seconds := 1, strength := 1 }, { time_seconds := 4, strength := 1 }]
                chop_points := [] } }] }
    style_profile := none
    target_frame_rate := 60 }

/-- Fixture input with a single zero-duration music track. -/
def zeroDurationInput : AssemblyInput :=
  { manifest :=
      { video_assets := [videoNoSpeech "v0" 5]
        audio_assets := [
          { file_path := "m"
            duration_seconds := 0
            metronome_analysis := { beat_grid := [], chop_points := [] } }] }
    style_profile := none
    target_frame_rate := 60 }

/-- Fixture input with no audio assets at all. -/
def noAudioInput : AssemblyInput :=
  { manifest := { video_assets := [videoNoSpeech "v0" 5], audio_assets := [] }
    style_profile := none
    target_frame_rate := 60 }

/-- Test oracle: out-of-range cut points `[5, 6]` for every clip. -/
def cutBad : ℕ → CutPointDecision :=
  fun _ => { source_in_seconds := 5, source_out_seconds := 6, reasoning := "c" }

/-- Fixture input: a single 5 s clip over a 3 s music track with no beats and
no chop points, beat alignment disabled. -/
def c6Input : AssemblyInput :=
  { manifest :=
      { video_assets := [videoNoSpeech "v0" 5]
        audio_assets := [
          { file_path := "m"
            duration_seconds := 3
            metronome_analysis := { beat_grid := [], chop_points := [] } }] }
    style_profile := some wStyleOff
    target_frame_rate := 60 }

/-- A dialogue clip fixture: 8 s long with speech from 1 s to 7 s. -/
def clipDlg : ClipForAssembly :=
  { clip_index := 0
    file_path := "v"
    duration_seconds := 8
    has_speech := true
    transcript := "t"
    speech_confidence := some 0.9
    speech_start_seconds := some 1
    speech_end_seconds := some 7
    best_stable_window_start := none
    best_stable_window_end := none
    tripod_score := none
    rotation_degrees := 0 }

/-- A degenerate dialogue clip whose speech range ends at `0.0` (a falsy
float in Python). -/
def clipDlgZeroEnd : ClipForAssembly :=
  { clip_index := 0
    file_path := "v"
    duration_seconds := 1
    has_speech := true
    transcript := "t"
    speech_confidence := some 0.9
    speech_start_seconds := some 0
    speech_end_seconds := some 0
    best_stable_window_start := none
    best_stable_window_end := none
    tripod_score := none
    rotation_degrees := 0 }

/-- Two chop points at 4 s and 7 s (scenario fixture). -/
def chopFixture : List ChopPoint :=
  [{ time_seconds := 4, strength := 1, is_downbeat := true },
   { time_seconds := 7, strength := 1, is_downbeat := false }]

/-- An always-include quality filter verdict. -/
def qualityInclude : QualityFilterResult :=
  { decision := .INCLUDE, confidence := 1, reasoning := "q" }

/-- A dialogue classifier verdict of the legacy variant. -/
def clsDlg : Legacy.ClassifierResult :=
  { classification := .DIALOGUE, confidence := 0.9, reasoning := "d" }

/-- A 12 s music bed starting at timeline 0 (ducking fixture). -/
def wTrack : AudioTrackInfo :=
  { file_path := "m"
    duration_seconds := 12
    source_in_seconds := 0
    source_out_seconds := 12
    timeline_in_seconds := 0
    volume := 1 }

/-! ### Helper lemmas about the retry loop -/

namespace Retry

/-- If the first `k` attempts starting at `a` fail transiently and more than
`k` iterations of fuel remain, the loop reaches attempt `a + k`, accumulating
the backoff sleeps `2^a, …, 2^(a+k-1)`. -/
theorem retryAux_skip {T : Type} (oracle : ℕ → Outcome T) :
    ∀ (k a fuel : ℕ), k < fuel →
    (∀ i, i < k → oracle (a + i) = .failure true) →
    retryAux oracle a fuel =
      ((retryAux oracle (a + k) (fuel - k)).1,
        ((List.range k).map (fun i => 2 ^ (a + i))) ++
          (retryAux oracle (a + k) (fuel - k)).2) := by
  intro k
  induction k with
  | zero =>
    intro a fuel _ _
    simp
  | succ k ih =>
    intro a fuel hk hfail
    obtain ⟨f, rfl⟩ : ∃ f, fuel = f + 1 := ⟨fuel - 1, by omega⟩
    have hfuel : 0 < f := by omega
    have h0 : oracle a = .failure true := by
      have := hfail 0 (by omega)
      simpa using this
    have step : retryAux oracle a (f + 1) =
        ((retryAux oracle (a + 1) f).1,
          2 ^ a :: (retryAux oracle (a + 1) f).2) := by
      simp [retryAux, h0, hfuel]
    have ihs := ih (a + 1) f (by omega) (by
      intro i hi
      have := hfail (i + 1) (by omega)
      simpa [Nat.add_assoc, Nat.add_comm 1 i] using this)
    have hlist : (2 ^ a) :: List.map (fun i => 2 ^ (a + 1 + i)) (List.range k) =
        List.map (fun i => 2 ^ (a + i)) (List.range (k + 1)) := by
      rw [List.range_succ_eq_map, List.map_cons, List.map_map]
      simp only [Function.comp, Nat.add_zero]
      congr 1
      apply List.map_congr_left
      intro i _
      congr 1
      omega
    have harr : a + 1 + k = a + (k + 1) := by omega
    have hfu : f - k = f + 1 - (k + 1) := by omega
    rw [step, ihs, harr, hfu, ← hlist]
    rfl

end Retry

/-! ### Theorems for the claims -/

/-- C8: the retry wrapper `_with_retry`.  (1) If the first `k` attempts fail
with a transient error and attempt `k+1` (index `k`, with `k < max_retries`)
succeeds, the wrapper returns the successful value after backoff sleeps of
`2^0, …, 2^(k-1)` seconds (1 s + 2 s for `k = 2`, `max_retries = 3`).
(2) A non-transient error propagates immediately, with no further attempt.
(3) A transient error on the final attempt propagates without further
retries. -/
theorem C8_retry_theorem {T : Type} (maxR : ℕ) (oracle : ℕ → Retry.Outcome T) :
    (∀ (k : ℕ) (v : T), k < maxR →
      (∀ i, i < k → oracle i = .failure true) →
      oracle k = .success v →
      Retry.withRetry maxR oracle = (.ok v, (List.range k).map (2 ^ ·))) ∧
    (∀ j : ℕ, j < maxR →
      (∀ i, i < j → oracle i = .failure true) →
      oracle j = .failure false →
      Retry.withRetry maxR oracle =
        (.error (.raised false), (List.range j).map (2 ^ ·))) ∧
    (0 < maxR →
      (∀ i, i < maxR → oracle i = .failure true) →
      Retry.withRetry maxR oracle =
        (.error (.raised true), (List.range (maxR - 1)).map (2 ^ ·))) := by
  refine ⟨?_, ?_, ?_⟩
  · intro k v hk hfail hsucc
    have hskip := Retry.retryAux_skip oracle k 0 maxR hk
      (by intro i hi; simpa using hfail i hi)
    obtain ⟨m, hm⟩ : ∃ m, maxR - k = m + 1 := ⟨maxR - k - 1, by omega⟩
    rw [Retry.withRetry, hskip]
    simp only [Nat.zero_add, hm, Retry.retryAux, hsucc]
    simp
  · intro j hj hfail hbad
    have hskip := Retry.retryAux_skip oracle j 0 maxR hj
      (by intro i hi; simpa using hfail i hi)
    obtain ⟨m, hm⟩ : ∃ m, maxR - j = m + 1 := ⟨maxR - j - 1, by omega⟩
    rw [Retry.withRetry, hskip]
    simp only [Nat.zero_add, hm, Retry.retryAux, hbad]
    simp
  · intro hpos hfail
    have hk : maxR - 1 < maxR := by omega
    have hskip := Retry.retryAux_skip oracle (maxR - 1) 0 maxR hk
      (by intro i hi; simpa using hfail i (by omega))
    have hone : maxR - (maxR - 1) = 1 := by omega
    rw [Retry.withRetry, hskip]
    simp only [Nat.zero_add, hone, Retry.retryAux, hfail (maxR - 1) hk]
    simp

/-- Witness for C8 at `max_retries = 3`: two transient failures then success
returns the value with backoff `1 s + 2 s`; a run of three transient failures
raises after the same backoff; an immediate non-transient failure raises with
no backoff. -/
theorem C8_retry_witness :
    Retry.withRetry 3 (fun i => if i < 2 then .failure true else .success (42 : ℕ)) =
      (.ok 42, [1, 2]) ∧
    Retry.withRetry 3 (fun _ => Retry.Outcome.failure (T := ℕ) true) =
      (.error (.raised true), [1, 2]) ∧
    Retry.withRetry 3 (fun _ => Retry.Outcome.failure (T := ℕ) false) =
      (.error (.raised false), []) := by
  refine ⟨?_, ?_, ?_⟩
  · have h := (C8_retry_theorem 3
      (fun i => if i < 2 then .failure true else .success (42 : ℕ))).1 2 42
      (by omega) (by decide) (by decide)
    simpa using h
  · have h := (C8_retry_theorem 3 (fun _ => Retry.Outcome.failure (T := ℕ) true)).2.2
      (by omega) (by intro i _; rfl)
    simpa using h
  · have h := (C8_retry_theorem 3 (fun _ => Retry.Outcome.failure (T := ℕ) false)).2.1
      0 (by omega) (by omega) rfl
    simpa using h

/-! ### Helper lemmas about list minima / maxima (Python `min` / `max`) -/

theorem foldl_min_mem (xs : List ℚ) : ∀ x : ℚ, xs.foldl min x ∈ x :: xs := by
  induction xs with
  | nil => intro x; simp
  | cons y ys ih =>
    intro x
    rw [List.foldl_cons]
    have h := ih (min x y)
    rcases List.mem_cons.1 h with h' | h'
    · rcases le_total x y with hxy | hxy
      · rw [h', min_eq_left hxy]
        exact List.mem_cons_self _ _
      · rw [h', min_eq_right hxy]
        simp
    · exact List.mem_cons_of_mem _ (List.mem_cons_of_mem _ h')

theorem foldl_min_le (xs : List ℚ) : ∀ x : ℚ, ∀ y ∈ x :: xs, xs.foldl min x ≤ y := by
  induction xs with
  | nil => intro x y hy; rw [List.mem_singleton] at hy; simp [hy]
  | cons z zs ih =>
    intro x y hy
    rw [List.foldl_cons]
    rcases List.mem_cons.1 hy with rfl | hy'
    · exact le_trans (ih (min y z) _ (List.mem_cons_self _ _)) (min_le_left _ _)
    · rcases List.mem_cons.1 hy' with rfl | hy''
      · exact le_trans (ih (min x y) _ (List.mem_cons_self _ _)) (min_le_right _ _)
      · exact ih (min x z) y (List.mem_cons_of_mem _ hy'')

theorem foldl_max_mem (xs : List ℚ) : ∀ x : ℚ, xs.foldl max x ∈ x :: xs := by
  induction xs with
  | nil => intro x; simp
  | cons y ys ih =>
    intro x
    rw [List.foldl_cons]
    have h := ih (max x y)
    rcases List.mem_cons.1 h with h' | h'
    · rcases le_total x y with hxy | hxy
      · rw [h', max_eq_right hxy]
        simp
      · rw [h', max_eq_left hxy]
        exact List.mem_cons_self _ _
    · exact List.mem_cons_of_mem _ (List.mem_cons_of_mem _ h')

theorem foldl_max_ge (xs : List ℚ) : ∀ x : ℚ, ∀ y ∈ x :: xs, y ≤ xs.foldl max x := by
  induction xs with
  | nil => intro x y hy; rw [List.mem_singleton] at hy; simp [hy]
  | cons z zs ih =>
    intro x y hy
    rw [List.foldl_cons]
    rcases List.mem_cons.1 hy with rfl | hy'
    · exact le_trans (le_max_left _ _) (ih (max y z) _ (List.mem_cons_self _ _))
    · rcases List.mem_cons.1 hy' with rfl | hy''
      · exact le_trans (le_max_right _ _) (ih (max x y) _ (List.mem_cons_self _ _))
      · exact ih (max x z) y (List.mem_cons_of_mem _ hy'')

theorem listMinD_mem (l : List ℚ) (d : ℚ) (h : l ≠ []) : listMinD l d ∈ l := by
  match l, h with
  | x :: xs, _ => exact foldl_min_mem xs x

theorem listMinD_le (l : List ℚ) (d : ℚ) (h : l ≠ []) : ∀ y ∈ l, listMinD l d ≤ y := by
  match l, h with
  | x :: xs, _ => exact foldl_min_le xs x

theorem listMaxD_mem (l : List ℚ) (d : ℚ) (h : l ≠ []) : listMaxD l d ∈ l := by
  match l, h with
  | x :: xs, _ => exact foldl_max_mem xs x

theorem listMaxD_ge (l : List ℚ) (d : ℚ) (h : l ≠ []) : ∀ y ∈ l, y ≤ listMaxD l d := by
  match l, h with
  | x :: xs, _ => exact foldl_max_ge xs x

theorem argminAbs_foldl_spec (t : ℚ) (bs : List ℚ) : ∀ b : ℚ,
    (bs.foldl (fun best x => if |x - t| < |best - t| then x else best) b ∈ b :: bs) ∧
    (∀ y ∈ b :: bs,
      |bs.foldl (fun best x => if |x - t| < |best - t| then x else best) b - t| ≤ |y - t|) := by
  induction bs with
  | nil =>
    intro b
    refine ⟨by simp, ?_⟩
    intro y hy
    rw [List.mem_singleton] at hy
    simp [hy]
  | cons z zs ih =>
    intro b
    constructor
    · rw [List.foldl_cons]
      by_cases hc : |z - t| < |b - t|
      · rw [if_pos hc]
        rcases List.mem_cons.1 (ih z).1 with h' | h' <;> simp [h']
      · rw [if_neg hc]
        rcases List.mem_cons.1 (ih b).1 with h' | h' <;> simp [h']
    · intro y hy
      rw [List.foldl_cons]
      by_cases hc : |z - t| < |b - t|
      · rw [if_pos hc]
        rcases List.mem_cons.1 hy with rfl | hy'
        · exact le_trans ((ih z).2 z (List.mem_cons_self _ _)) (le_of_lt hc)
        · rcases List.mem_cons.1 hy' with rfl | hy''
          · exact (ih y).2 y (List.mem_cons_self _ _)
          · exact (ih z).2 y (List.mem_cons_of_mem _ hy'')
      · rw [if_neg hc]
        rcases List.mem_cons.1 hy with rfl | hy'
        · exact (ih y).2 y (List.mem_cons_self _ _)
        · rcases List.mem_cons.1 hy' with rfl | hy''
          · exact le_trans ((ih b).2 b (List.mem_cons_self _ _)) (le_of_not_lt hc)
          · exact (ih b).2 y (List.mem_cons_of_mem _ hy'')

theorem snapToNearestBeat_mem (t : ℚ) (beats : List ℚ) (h : beats ≠ []) :
    Backend.snapToNearestBeat t beats ∈ beats := by
  match beats, h with
  | b :: bs, _ =>
    show argminAbs t (b :: bs) t ∈ b :: bs
    exact (argminAbs_foldl_spec t bs b).1

theorem snapToNearestBeat_min (t : ℚ) (beats : List ℚ) (h : beats ≠ []) :
    ∀ y ∈ beats, |Backend.snapToNearestBeat t beats - t| ≤ |y - t| := by
  match beats, h with
  | b :: bs, _ =>
    show ∀ y ∈ b :: bs, |argminAbs t (b :: bs) t - t| ≤ |y - t|
    exact (argminAbs_foldl_spec t bs b).2

/-- `_snap_to_next_beat` returns a beat; when some beat lies at or after
`t - 0.05` it returns the earliest such beat, otherwise the last beat. -/
theorem snapToNextBeat_spec (t : ℚ) (beats : List ℚ) (h : beats ≠ []) :
    Backend.snapToNextBeat t beats ∈ beats ∧
    ((∃ b ∈ beats, t - 0.05 ≤ b) →
      t - 0.05 ≤ Backend.snapToNextBeat t beats ∧
      ∀ b ∈ beats, t - 0.05 ≤ b → Backend.snapToNextBeat t beats ≤ b) ∧
    ((∀ b ∈ beats, b < t - 0.05) →
      ∀ b ∈ beats, b ≤ Backend.snapToNextBeat t beats) := by
  match beats, h with
  | x :: xs, _ =>
    by_cases hf : (x :: xs).filter (fun b => decide (t - 0.05 ≤ b)) = []
    · have hred : Backend.snapToNextBeat t (x :: xs) = listMaxD (x :: xs) t := by
        simp only [Backend.snapToNextBeat]
        rw [hf]
      have hall : ∀ b ∈ x :: xs, b < t - 0.05 := by
        intro b hb
        by_contra hlt
        have hmem : b ∈ (x :: xs).filter (fun b => decide (t - 0.05 ≤ b)) :=
          List.mem_filter.2 ⟨hb, by simpa using le_of_not_lt hlt⟩
        rw [hf] at hmem
        exact absurd hmem (List.not_mem_nil _)
      rw [hred]
      refine ⟨listMaxD_mem _ t (by simp), ?_, ?_⟩
      · rintro ⟨b, hb, hble⟩
        exact absurd hble (not_le_of_lt (hall b hb))
      · intro _ b hb
        exact listMaxD_ge _ t (by simp) b hb
    · have hred : Backend.snapToNextBeat t (x :: xs) =
          listMinD ((x :: xs).filter (fun b => decide (t - 0.05 ≤ b))) t := by
        simp only [Backend.snapToNextBeat]
      rw [hred]
      have hsub : ∀ y ∈ (x :: xs).filter (fun b => decide (t - 0.05 ≤ b)),
          y ∈ x :: xs ∧ t - 0.05 ≤ y := by
        intro y hy
        have := List.mem_filter.1 hy
        exact ⟨this.1, by simpa using this.2⟩
      have hminmem := listMinD_mem ((x :: xs).filter (fun b => decide (t - 0.05 ≤ b))) t hf
      refine ⟨(hsub _ hminmem).1, ?_, ?_⟩
      · intro _
        refine ⟨(hsub _ hminmem).2, ?_⟩
        intro b hb hble
        exact listMinD_le _ t hf b (List.mem_filter.2 ⟨hb, by simpa using hble⟩)
      · intro hall
        exact absurd (hall _ (hsub _ hminmem).1) (not_lt_of_le (hsub _ hminmem).2)

/-- C5 (amended): the hard dual-snap policy.  (i) Dialogue clips are never
beat-snapped.  (ii) `timeline_in` snaps to the beat nearest the current
cursor.  (iii) The out-snap target is the earliest beat at or after the ideal
out *minus a 0.05 s tolerance* (not "at or after the ideal out" as the claim
words it), falling back to the last beat.  (iv) For B-roll, the snap is
applied exactly when the snapped span is at least `0.25` s, in which case
`source_out` is recomputed to match it (clamped to the clip duration);
otherwise the decision is placed at the cursor unchanged. -/
theorem C5_snap_theorem (ci : ℕ) (beats : List ℚ) (cp : CutPointDecision)
    (clip : ClipForAssembly) (cur : ℚ) (hb : beats ≠ []) :
    ((Backend.decideClip ci true beats true cp clip cur).1.timeline_in_seconds = cur ∧
      (Backend.decideClip ci true beats true cp clip cur).1.source_out_seconds =
        (Backend.clampCutPoints cp clip.duration_seconds).2) ∧
    (Backend.snapToNearestBeat cur beats ∈ beats ∧
      ∀ b ∈ beats, |Backend.snapToNearestBeat cur beats - cur| ≤ |b - cur|) ∧
    (∀ t : ℚ, Backend.snapToNextBeat t beats ∈ beats ∧
      ((∃ b ∈ beats, t - 0.05 ≤ b) →
        t - 0.05 ≤ Backend.snapToNextBeat t beats ∧
        ∀ b ∈ beats, t - 0.05 ≤ b → Backend.snapToNextBeat t beats ≤ b) ∧
      ((∀ b ∈ beats, b < t - 0.05) →
        ∀ b ∈ beats, b ≤ Backend.snapToNextBeat t beats)) ∧
    ((0.25 : ℚ) ≤
        Backend.snapToNextBeat
          (Backend.snapToNearestBeat cur beats +
            ((Backend.clampCutPoints cp clip.duration_seconds).2 -
              (Backend.clampCutPoints cp clip.duration_seconds).1)) beats -
          Backend.snapToNearestBeat cur beats →
      (Backend.decideClip ci true beats false cp clip cur).1.timeline_in_seconds =
        Backend.snapToNearestBeat cur beats ∧
      (Backend.decideClip ci true beats false cp clip cur).1.source_out_seconds =
        min clip.duration_seconds
          ((Backend.clampCutPoints cp clip.duration_seconds).1 +
            (Backend.snapToNextBeat
              (Backend.snapToNearestBeat cur beats +
                ((Backend.clampCutPoints cp clip.duration_seconds).2 -
                  (Backend.clampCutPoints cp clip.duration_seconds).1)) beats -
              Backend.snapToNearestBeat cur beats)) ∧
      (Backend.decideClip ci true beats false cp clip cur).1.timeline_out_seconds =
        Backend.snapToNearestBeat cur beats +
          ((Backend.decideClip ci true beats false cp clip cur).1.source_out_seconds -
            (Backend.clampCutPoints cp clip.duration_seconds).1)) ∧
    (¬ ((0.25 : ℚ) ≤
        Backend.snapToNextBeat
          (Backend.snapToNearestBeat cur beats +
            ((Backend.clampCutPoints cp clip.duration_seconds).2 -
              (Backend.clampCutPoints cp clip.duration_seconds).1)) beats -
          Backend.snapToNearestBeat cur beats) →
      (Backend.decideClip ci true beats false cp clip cur).1.timeline_in_seconds = cur ∧
      (Backend.decideClip ci true beats false cp clip cur).1.source_out_seconds =
        (Backend.clampCutPoints cp clip.duration_seconds).2) := by
  refine ⟨?_, ⟨snapToNearestBeat_mem cur beats hb, snapToNearestBeat_min cur beats hb⟩,
    fun t => snapToNextBeat_spec t beats hb, ?_, ?_⟩
  · constructor <;> simp [Backend.decideClip]
  · intro hge
    refine ⟨?_, ?_, ?_⟩ <;>
      simp [Backend.decideClip, Backend.beatAlign, hb, if_pos hge]
  · intro hge
    constructor <;>
      simp [Backend.decideClip, Backend.beatAlign, hb, if_neg hge]

/-- Witness for C5: a dialogue clip with beats `[1, 2]` is placed at the
cursor with unsnapped cut points. -/
theorem C5_snap_witness :
    (Backend.decideClip 0 true [1, 2] true (cutSimple 0) clipDlg 0).1.timeline_in_seconds = 0 ∧
    (Backend.decideClip 0 true [1, 2] true (cutSimple 0) clipDlg 0).1.source_out_seconds =
      (Backend.clampCutPoints (cutSimple 0) clipDlg.duration_seconds).2 :=
  (C5_snap_theorem 0 [1, 2] (cutSimple 0) clipDlg 0 (by decide)).1

/-- Counterexample for C5 as stated: with beats `[1, 2]` and ideal out-time
`1.03`, the code snaps `timeline_out` to beat `1` — a beat strictly *before*
the ideal time — although beat `2` lies at or after it; the claimed
"next beat at or after `timeline_in + clip_duration`" would be `2`. -/
theorem C5_snap_counterexample :
    Backend.snapToNextBeat (103/100) [1, 2] = 1 ∧
    (1 : ℚ) < 103/100 ∧ (103/100 : ℚ) ≤ 2 := by
  refine ⟨by with_unfolding_all decide, by norm_num, by norm_num⟩

/-! ### Infrastructure: fold invariants and `assemble` inversion -/

theorem foldl_inv {σ α : Type} (f : σ → α → σ) (inv : σ → Prop) :
    ∀ (l : List α) (s : σ), inv s → (∀ s' a, a ∈ l → inv s' → inv (f s' a)) →
    inv (l.foldl f s) := by
  intro l
  induction l with
  | nil => intro s hs _; simpa using hs
  | cons x xs ih =>
    intro s hs hstep
    rw [List.foldl_cons]
    exact ih (f s x) (hstep s x (List.mem_cons_self _ _) hs)
      (fun s' a ha => hstep s' a (List.mem_cons_of_mem _ ha))

/-- Inversion of a successful `assemble` run: the manifest has a music track
and the blueprint is built from the chunk fold and the audio-track map. -/
theorem assemble_ok_fields (inp : AssemblyInput)
    (classify : ℕ → DialogueClassifierResult) (cutO : ℕ → CutPointDecision)
    (bp : TimelineBlueprint) (h : Backend.assemble inp classify cutO = .ok bp) :
    ∃ music rest, inp.manifest.audio_assets = music :: rest ∧
      bp =
        (let boundaries := Backend.chunkBoundaries inp.style_profile
          music.metronome_analysis.beat_grid music.metronome_analysis.chop_points
          music.duration_seconds
        let final := Backend.assembleFold
          (Backend.prepareClips inp.manifest.video_assets) boundaries
          music.metronome_analysis.beat_grid inp.style_profile
          (boundaries.length - 1) classify cutO
        { total_duration_seconds := final.2.1
          frame_rate := inp.target_frame_rate
          chunk_decisions := final.1
          audio_tracks := inp.manifest.audio_assets.map (fun a =>
            { file_path := a.file_path
              duration_seconds := a.duration_seconds
              source_in_seconds := 0
              source_out_seconds := min a.duration_seconds final.2.1
              timeline_in_seconds := 0
              volume := 1 }) }) := by
  cases haud : inp.manifest.audio_assets with
  | nil =>
    simp [Backend.assemble, haud] at h
  | cons music rest =>
    simp only [Backend.assemble, haud, Except.ok.injEq] at h
    refine ⟨music, rest, rfl, ?_⟩
    rw [← h]

/-! ### C6: clamped cut points and positive durations -/

theorem clampCutPoints_fst (cp : CutPointDecision) (dur : ℚ) :
    (Backend.clampCutPoints cp dur).1 = max 0 cp.source_in_seconds := rfl

theorem clampCutPoints_lt (cp : CutPointDecision) (dur : ℚ)
    (h : max 0 cp.source_in_seconds < dur) :
    (Backend.clampCutPoints cp dur).1 < (Backend.clampCutPoints cp dur).2 := by
  simp only [Backend.clampCutPoints]
  split_ifs with hc
  · exact lt_min h (by linarith)
  · exact not_le.1 hc

/-- Positivity of one emitted decision: when the oracle's clamped `source_in`
lies strictly inside the clip, the emitted decision has `source_in <
source_out` and `timeline_in < timeline_out`, and the returned cursor is its
`timeline_out`. -/
theorem decideClip_pos (ci : ℕ) (align : Bool) (beats : List ℚ) (dlg : Bool)
    (cp : CutPointDecision) (clip : ClipForAssembly) (cur : ℚ)
    (h : max 0 cp.source_in_seconds < clip.duration_seconds) :
    ((Backend.decideClip ci align beats dlg cp clip cur).1.source_in_seconds <
      (Backend.decideClip ci align beats dlg cp clip cur).1.source_out_seconds) ∧
    ((Backend.decideClip ci align beats dlg cp clip cur).1.timeline_in_seconds <
      (Backend.decideClip ci align beats dlg cp clip cur).1.timeline_out_seconds) ∧
    (Backend.decideClip ci align beats dlg cp clip cur).2 =
      (Backend.decideClip ci align beats dlg cp clip cur).1.timeline_out_seconds := by
  have hlt := clampCutPoints_lt cp clip.duration_seconds h
  have hfst := clampCutPoints_fst cp clip.duration_seconds
  simp only [Backend.decideClip, Backend.beatAlign]
  split_ifs with h1 h2
  · have hA : (Backend.clampCutPoints cp clip.duration_seconds).1 <
        min clip.duration_seconds ((Backend.clampCutPoints cp clip.duration_seconds).1 +
          (Backend.snapToNextBeat
            (Backend.snapToNearestBeat cur beats +
              ((Backend.clampCutPoints cp clip.duration_seconds).2 -
                (Backend.clampCutPoints cp clip.duration_seconds).1)) beats -
            Backend.snapToNearestBeat cur beats)) := by
      refine lt_min ?_ ?_
      · rw [hfst]; exact h
      · linarith
    refine ⟨hA, ?_, trivial⟩
    show Backend.snapToNearestBeat cur beats <
      Backend.snapToNearestBeat cur beats +
        (min clip.duration_seconds ((Backend.clampCutPoints cp clip.duration_seconds).1 +
          (Backend.snapToNextBeat
            (Backend.snapToNearestBeat cur beats +
              ((Backend.clampCutPoints cp clip.duration_seconds).2 -
                (Backend.clampCutPoints cp clip.duration_seconds).1)) beats -
            Backend.snapToNearestBeat cur beats)) -
          (Backend.clampCutPoints cp clip.duration_seconds).1)
    linarith
  · refine ⟨hlt, ?_, trivial⟩
    show cur < cur + ((Backend.clampCutPoints cp clip.duration_seconds).2 -
      (Backend.clampCutPoints cp clip.duration_seconds).1)
    linarith
  · refine ⟨hlt, ?_, trivial⟩
    show cur < cur + ((Backend.clampCutPoints cp clip.duration_seconds).2 -
      (Backend.clampCutPoints cp clip.duration_seconds).1)
    linarith

/-- Every decision of a chunk fold satisfies `P` when every possible
`decideClip` output on a clip of the list does. -/
theorem cutDecisionsGo_forall (ci : ℕ) (align : Bool) (beats : List ℚ)
    (classify : ℕ → DialogueClassifierResult) (cutO : ℕ → CutPointDecision)
    (P : CutDecision → Prop) :
    ∀ (l : List ClipForAssembly) (cur : ℚ),
    (∀ clip ∈ l, ∀ (dlg : Bool) (c : ℚ),
      P (Backend.decideClip ci align beats dlg (cutO clip.clip_index) clip c).1) →
    ∀ d ∈ Backend.cutDecisionsGo ci align beats classify cutO l cur, P d := by
  intro l
  induction l with
  | nil => intro cur _ d hd; simp [Backend.cutDecisionsGo] at hd
  | cons clip rest ih =>
    intro cur hP d hd
    simp only [Backend.cutDecisionsGo] at hd
    rcases List.mem_cons.1 hd with rfl | hd'
    · exact hP clip (List.mem_cons_self _ _) _ _
    · exact ih _ (fun c hc => hP c (List.mem_cons_of_mem _ hc)) d hd'

/-- Per-step preservation: every decision added by one `assembleStep`
iteration is a `decideClip` output on a clip of the pool. -/
theorem assembleStep_prop (clips : List ClipForAssembly) (boundaries : List ℚ)
    (beat_grid : List BeatInfo) (style : Option StyleProfile) (total : ℕ)
    (classify : ℕ → DialogueClassifierResult) (cutO : ℕ → CutPointDecision)
    (P : CutDecision → Prop)
    (hP : ∀ clip ∈ clips, ∀ (ci : ℕ) (align : Bool) (beats : List ℚ) (dlg : Bool) (c : ℚ),
      P (Backend.decideClip ci align beats dlg (cutO clip.clip_index) clip c).1) :
    ∀ st idx, (∀ cd ∈ st.1, ∀ d ∈ cd.decisions, P d) →
      ∀ cd ∈ (Backend.assembleStep clips boundaries beat_grid style total classify
        cutO st idx).1, ∀ d ∈ cd.decisions, P d := by
  intro st idx hst cd hcd d hd
  simp only [Backend.assembleStep] at hcd
  by_cases hrem : clips.length - st.2.2 = 0
  · rw [if_pos hrem] at hcd
    exact hst cd hcd d hd
  · rw [if_neg hrem] at hcd
    rcases List.mem_append.1 hcd with h' | h'
    · exact hst cd h' d hd
    · rw [List.mem_singleton] at h'
      subst h'
      simp only [Backend.processChunk, Backend.createCutDecisions] at hd
      refine cutDecisionsGo_forall _ _ _ classify cutO P _ _ ?_ d hd
      intro clip hclip dlg c
      exact hP clip
        (List.drop_subset _ _ (List.take_subset _ _ hclip)) _ _ _ dlg c

/-- Every decision of a successful run is a `decideClip` output on a prepared
clip, so any property closed under `decideClip` holds of all of them. -/
theorem assemble_all_decisions_prop (inp : AssemblyInput)
    (classify : ℕ → DialogueClassifierResult) (cutO : ℕ → CutPointDecision)
    (bp : TimelineBlueprint) (P : CutDecision → Prop)
    (hP : ∀ clip ∈ Backend.prepareClips inp.manifest.video_assets,
      ∀ (ci : ℕ) (align : Bool) (beats : List ℚ) (dlg : Bool) (c : ℚ),
      P (Backend.decideClip ci align beats dlg (cutO clip.clip_index) clip c).1)
    (h : Backend.assemble inp classify cutO = .ok bp) :
    ∀ d ∈ bp.all_decisions, P d := by
  obtain ⟨music, rest, haud, hbp⟩ := assemble_ok_fields inp classify cutO bp h
  intro d hd
  rw [TimelineBlueprint.all_decisions, hbp] at hd
  simp only [] at hd
  rcases List.mem_flatten.1 hd with ⟨dl, hdl, hdm⟩
  rcases List.mem_map.1 hdl with ⟨cd, hcdm, rfl⟩
  have hinv := foldl_inv
    (Backend.assembleStep (Backend.prepareClips inp.manifest.video_assets)
      (Backend.chunkBoundaries inp.style_profile music.metronome_analysis.beat_grid
        music.metronome_analysis.chop_points music.duration_seconds)
      music.metronome_analysis.beat_grid inp.style_profile
      ((Backend.chunkBoundaries inp.style_profile music.metronome_analysis.beat_grid
        music.metronome_analysis.chop_points music.duration_seconds).length - 1)
      classify cutO)
    (fun st => ∀ cd ∈ st.1, ∀ d ∈ cd.decisions, P d)
    (List.range ((Backend.chunkBoundaries inp.style_profile
      music.metronome_analysis.beat_grid music.metronome_analysis.chop_points
      music.duration_seconds).length - 1))
    ([], 0, 0)
    (by simp)
    (fun s' a _ hs => assembleStep_prop _ _ _ _ _ classify cutO P hP s' a hs)
  exact hinv cd hcdm d hdm

/-- C6 (amended): in every successful run, every emitted decision coming from
a clip whose clamped oracle `source_in` lies strictly below the clip duration
has `source_out > source_in` and `timeline_out > timeline_in` — the condition
is per decision, so decisions of conforming clips are covered even when other
clips of the run are out of range.  (When the oracle's
`source_in` lies at or beyond the clip's end, the degenerate-window fallback
`source_out := min(duration, source_in + 0.5)` fails to restore positivity —
see the counterexample — so the claim's unconditional form is false.) -/
theorem C6_duration_theorem (inp : AssemblyInput)
    (classify : ℕ → DialogueClassifierResult) (cutO : ℕ → CutPointDecision)
    (bp : TimelineBlueprint)
    (h : Backend.assemble inp classify cutO = .ok bp) :
    ∀ d ∈ bp.all_decisions,
      (∀ clip ∈ Backend.prepareClips inp.manifest.video_assets,
        clip.clip_index = d.clip_index →
        max 0 (cutO clip.clip_index).source_in_seconds < clip.duration_seconds) →
      d.source_in_seconds < d.source_out_seconds ∧
      d.timeline_in_seconds < d.timeline_out_seconds := by
  refine assemble_all_decisions_prop inp classify cutO bp
    (fun d => (∀ clip ∈ Backend.prepareClips inp.manifest.video_assets,
        clip.clip_index = d.clip_index →
        max 0 (cutO clip.clip_index).source_in_seconds < clip.duration_seconds) →
      d.source_in_seconds < d.source_out_seconds ∧
      d.timeline_in_seconds < d.timeline_out_seconds) ?_ h
  intro clip hclip ci align beats dlg c hfor
  have hb := hfor clip hclip rfl
  have := decideClip_pos ci align beats dlg (cutO clip.clip_index) clip c hb
  exact ⟨this.1, this.2.1⟩

/-- Witness for C6 on a concrete two-clip run, instantiated at the run's
first decision, whose clip is in range. -/
theorem C6_duration_witness :
    wFirstDecision.source_in_seconds < wFirstDecision.source_out_seconds ∧
    wFirstDecision.timeline_in_seconds < wFirstDecision.timeline_out_seconds :=
  C6_duration_theorem wInput classifyBroll cutSimple
    (runBlueprint wInput classifyBroll cutSimple)
    (by with_unfolding_all rfl)
    wFirstDecision
    (by with_unfolding_all decide)
    (by with_unfolding_all decide)

/-- Counterexample for C6 as stated: a run whose oracle returns
`source_in = 5` for a 5 s clip emits a decision with `source_out = source_in`
and `timeline_out = timeline_in` — a zero-duration decision. -/
theorem C6_duration_counterexample :
    (runBlueprint c6Input classifyBroll cutBad).all_decisions.map
      (fun d => (d.source_in_seconds, d.source_out_seconds,
        d.timeline_in_seconds, d.timeline_out_seconds)) = [(5, 5, 0, 0)] ∧
    ¬ (∀ d ∈ (runBlueprint c6Input classifyBroll cutBad).all_decisions,
        d.source_in_seconds < d.source_out_seconds ∧
        d.timeline_in_seconds < d.timeline_out_seconds) := by
  constructor
  · with_unfolding_all decide
  · with_unfolding_all decide

/-! ### C4: the legacy dialogue cut-point policy -/

theorem pyOr_some_zero (v : ℚ) : Legacy.pyOr (some v) 0 = v := by
  by_cases h : v = 0 <;> simp [Legacy.pyOr, h]

theorem pyOr_some_ne (v dflt : ℚ) (h : v ≠ 0) : Legacy.pyOr (some v) dflt = v := by
  simp [Legacy.pyOr, h]

/-- C4 (amended): for a clip the legacy assembler classifies DIALOGUE, with
`speech_start` and a *nonzero* `speech_end` set (Python's `or` treats a `0.0`
speech end as unset), the decision's cut points are
`source_in = max(0, speech_start − 0.2)` and
`source_out = min(duration, speech_end + 0.2)`; with in-range speech
(`0 ≤ speech_start`, `speech_end ≤ duration`) the padding never trims speech.
The legacy policy takes no target-duration input at all, so the cut points are
trivially independent of the segment's target duration. -/
theorem C4_dialogue_theorem (ci : ℕ) (quality : QualityFilterResult)
    (cls : Legacy.ClassifierResult) (clip : ClipForAssembly) (cur s e : ℚ)
    (hq : quality.decision ≠ QualityDecision.SKIP)
    (hc : cls.classification = ClipClassification.DIALOGUE)
    (hs : clip.speech_start_seconds = some s)
    (he : clip.speech_end_seconds = some e)
    (he0 : e ≠ 0) (hs0 : 0 ≤ s) (hed : e ≤ clip.duration_seconds) :
    (Legacy.decideClip ci quality cls clip cur).map
        (fun r => (r.1.source_in_seconds, r.1.source_out_seconds, r.1.clip_type)) =
      some (max 0 (s - 0.2), min clip.duration_seconds (e + 0.2), ClipType.DIALOGUE) ∧
    max 0 (s - 0.2) ≤ s ∧ e ≤ min clip.duration_seconds (e + 0.2) := by
  have hpe : Legacy.pyOr (some e) clip.duration_seconds = e :=
    pyOr_some_ne e _ he0
  refine ⟨?_, max_le hs0 (by linarith), le_min hed (by linarith)⟩
  simp [Legacy.decideClip, hq, hc, hs, he, hpe, pyOr_some_zero]

/-- Witness for C4: an 8 s clip with speech on `[1, 7]` yields
`source_in = 0.8`, `source_out = 7.2`. -/
theorem C4_dialogue_witness :
    (Legacy.decideClip 0 qualityInclude clsDlg clipDlg 0).map
        (fun r => (r.1.source_in_seconds, r.1.source_out_seconds, r.1.clip_type)) =
      some (max 0 ((1 : ℚ) - 0.2), min clipDlg.duration_seconds ((7 : ℚ) + 0.2),
        ClipType.DIALOGUE) ∧
    max 0 ((1 : ℚ) - 0.2) ≤ 1 ∧ (7 : ℚ) ≤ min clipDlg.duration_seconds ((7 : ℚ) + 0.2) :=
  C4_dialogue_theorem 0 qualityInclude clsDlg clipDlg 0 1 7
    (by decide) rfl rfl rfl (by norm_num) (by norm_num)
    (by with_unfolding_all decide)

/-- Counterexample for C4 as stated: a DIALOGUE clip of duration 1 s with
`speech_end = 0.0` *set* gets `source_out = 1` (Python's falsy `or` falls back
to the clip duration), not the claimed `min(duration, speech_end + 0.2) =
0.2`. -/
theorem C4_dialogue_counterexample :
    (Legacy.decideClip 0 qualityInclude clsDlg clipDlgZeroEnd 0).map
        (fun r => r.1.source_out_seconds) = some 1 ∧
    clipDlgZeroEnd.speech_end_seconds = some 0 ∧
    min clipDlgZeroEnd.duration_seconds ((0 : ℚ) + 0.2) = 1/5 ∧
    (1 : ℚ) ≠ 1/5 := by
  refine ⟨?_, rfl, ?_, by norm_num⟩
  · with_unfolding_all decide
  · with_unfolding_all decide

/-! ### C2: chunk boundaries -/

/-- C2 (amended): in phrase mode (no `beats_per_cut` override) the boundary
list is exactly `[0.0] ++ chop-point times ++ [total_duration]` (hence length
`len(chop_points) + 2` and first/last as claimed), and it is strictly
increasing *provided* the chop times are strictly increasing and lie strictly
between `0` and the total duration; determinism holds since the construction
is a pure function of its inputs.  Without those provisos the list need not
be strictly increasing — see the counterexample. -/
theorem C2_boundaries_theorem (style : Option StyleProfile) (bg : List BeatInfo)
    (cps : List ChopPoint) (dur : ℚ)
    (hphrase : style.bind (·.beats_per_cut) = none) :
    Backend.chunkBoundaries style bg cps dur =
      ([0] ++ cps.map (·.time_seconds)) ++ [dur] ∧
    (Backend.chunkBoundaries style bg cps dur).length = cps.length + 2 ∧
    (Backend.chunkBoundaries style bg cps dur).head? = some 0 ∧
    (Backend.chunkBoundaries style bg cps dur).getLast? = some dur ∧
    (0 < dur →
      List.Chain' (· < ·) (cps.map (·.time_seconds)) →
      (∀ t ∈ cps.map (·.time_seconds), 0 < t ∧ t < dur) →
      List.Chain' (· < ·) (Backend.chunkBoundaries style bg cps dur)) := by
  have hfirst : Backend.chunkBoundaries style bg cps dur =
      ([0] ++ cps.map (·.time_seconds)) ++ [dur] := by
    cases bg with
    | nil => simp [Backend.chunkBoundaries, hphrase]
    | cons b bs => simp [Backend.chunkBoundaries, hphrase]
  refine ⟨hfirst, ?_, ?_, ?_, ?_⟩
  · rw [hfirst]
    simp [List.length_append]
  · rw [hfirst]
    rfl
  · rw [hfirst]
    exact List.getLast?_concat _
  · intro hdur hchain hbounds
    rw [hfirst]
    have hshape : ([(0 : ℚ)] ++ cps.map (·.time_seconds)) ++ [dur] =
        0 :: (cps.map (·.time_seconds) ++ [dur]) := by simp
    rw [hshape, List.chain'_cons']
    constructor
    · intro h hh
      cases hmap : cps.map (·.time_seconds) with
      | nil =>
        rw [hmap] at hh
        simp at hh
        subst hh
        exact hdur
      | cons t ts =>
        rw [hmap] at hh
        simp at hh
        subst hh
        exact (hbounds t (by rw [hmap]; exact List.mem_cons_self _ _)).1
    · rw [List.chain'_append]
      refine ⟨hchain, by simp, ?_⟩
      intro x hx y hy
      simp at hy
      subst hy
      have hxm : x ∈ cps.map (·.time_seconds) := List.mem_of_mem_getLast? hx
      exact (hbounds x hxm).2

/-- Witness for C2 in phrase mode with chop points `[4, 7]` and duration 10. -/
theorem C2_boundaries_witness :
    Backend.chunkBoundaries none [] chopFixture 10 =
      ([0] ++ chopFixture.map (·.time_seconds)) ++ [10] :=
  (C2_boundaries_theorem none [] chopFixture 10 rfl).1

/-- Counterexample for C2 as stated: a legal chop-point list containing time
`0.0` (the manifest invariant only requires non-decreasing times) produces the
boundary list `[0, 0, 5]`, which is not strictly increasing. -/
theorem C2_boundaries_counterexample :
    Backend.chunkBoundaries none []
      [{ time_seconds := 0, strength := 1, is_downbeat := true }] 5 = [0, 0, 5] ∧
    ¬ List.Chain' (· < ·) [(0 : ℚ), 0, 5] := by
  refine ⟨rfl, fun h => absurd (List.chain'_cons.1 h).1 (lt_irrefl 0)⟩

/-! ### C9: input validation -/

/-- C9 (amended): `assemble` raises the input error exactly when the manifest
has no audio assets; a zero total duration is *not* checked and does not
raise.  (The claim's "raises … when the music's total duration is zero" is
refuted by the counterexample.) -/
theorem C9_input_error_theorem (inp : AssemblyInput)
    (classify : ℕ → DialogueClassifierResult) (cutO : ℕ → CutPointDecision) :
    (inp.manifest.audio_assets = [] →
      Backend.assemble inp classify cutO =
        .error "No audio assets found in manifest") ∧
    (inp.manifest.audio_assets ≠ [] →
      ∃ bp, Backend.assemble inp classify cutO = .ok bp) := by
  cases haud : inp.manifest.audio_assets with
  | nil =>
    refine ⟨fun _ => ?_, fun hne => absurd rfl hne⟩
    rw [Backend.assemble, haud]
  | cons music rest =>
    refine ⟨fun hnil => absurd hnil (by simp), fun _ => ?_⟩
    exact ⟨_, by rw [Backend.assemble, haud]⟩

/-- Witness for C9: a manifest without audio assets raises the input error,
and the two-clip fixture with a music track does not. -/
theorem C9_input_error_witness :
    Backend.assemble noAudioInput classifyBroll cutSimple =
      .error "No audio assets found in manifest" :=
  (C9_input_error_theorem noAudioInput classifyBroll cutSimple).1 rfl

/-- Counterexample for C9 as stated: a manifest whose only music track has
total duration `0` is assembled successfully — no input error is raised. -/
theorem C9_input_error_counterexample :
    zeroDurationInput.manifest.audio_assets.map (·.duration_seconds) = [0] ∧
    (Backend.assemble zeroDurationInput classifyBroll cutSimple).toOption.isSome
      = true := by
  constructor
  · rfl
  · with_unfolding_all decide

/-! ### C10: audio tracks of the blueprint -/

/-- C10: a successful run emits exactly one `AudioTrackInfo` per audio asset,
in manifest order, with `source_in = 0`, `timeline_in = 0`, `volume = 1` and
`source_out = min(asset duration, total_duration)`; in particular no music bed
extends past the edited video's end. -/
theorem C10_audio_tracks_theorem (inp : AssemblyInput)
    (classify : ℕ → DialogueClassifierResult) (cutO : ℕ → CutPointDecision)
    (bp : TimelineBlueprint) (h : Backend.assemble inp classify cutO = .ok bp) :
    bp.audio_tracks = inp.manifest.audio_assets.map (fun a =>
      { file_path := a.file_path
        duration_seconds := a.duration_seconds
        source_in_seconds := 0
        source_out_seconds := min a.duration_seconds bp.total_duration_seconds
        timeline_in_seconds := 0
        volume := 1 }) ∧
    ∀ track ∈ bp.audio_tracks,
      track.source_out_seconds ≤ bp.total_duration_seconds := by
  obtain ⟨music, rest, haud, hbp⟩ := assemble_ok_fields inp classify cutO bp h
  subst hbp
  refine ⟨rfl, ?_⟩
  intro track htrack
  simp only [] at htrack
  rcases List.mem_map.1 htrack with ⟨a, _, rfl⟩
  exact min_le_right _ _

/-- Witness for C10 on the two-clip fixture run. -/
theorem C10_audio_tracks_witness :
    (runBlueprint wInput classifyBroll cutSimple).audio_tracks =
      wInput.manifest.audio_assets.map (fun a =>
        { file_path := a.file_path
          duration_seconds := a.duration_seconds
          source_in_seconds := 0
          source_out_seconds := min a.duration_seconds
            (runBlueprint wInput classifyBroll cutSimple).total_duration_seconds
          timeline_in_seconds := 0
          volume := 1 }) ∧
    ∀ track ∈ (runBlueprint wInput classifyBroll cutSimple).audio_tracks,
      track.source_out_seconds ≤
        (runBlueprint wInput classifyBroll cutSimple).total_duration_seconds :=
  C10_audio_tracks_theorem wInput classifyBroll cutSimple
    (runBlueprint wInput classifyBroll cutSimple)
    (by with_unfolding_all rfl)

/-! ### C3: clip budget allocation -/

theorem allocCount_le (r k : ℕ) (d t : ℚ) : Backend.allocCount r k d t ≤ r :=
  min_le_right _ _

/-- With clips remaining, the outer cap by `remaining_clips` is redundant:
the allocation is `min(max(1, int(dur/target)), max(1, remaining //
segments))`. -/
theorem allocCount_eq (r k : ℕ) (d t : ℚ) (h : 0 < r) :
    Backend.allocCount r k d t =
      min ((max 1 (pyInt (d / t))).toNat) (max 1 (r / k)) := by
  show min (min ((max 1 (pyInt (d / t))).toNat) (max 1 (r / k))) r = _
  have hB : max 1 (r / k) ≤ r := max_le h (Nat.div_le_self r k)
  exact min_eq_left (le_trans (min_le_right _ _) hB)

theorem range_drop_take (L c n : ℕ) (h : c + n ≤ L) :
    ((List.range L).drop c).take n = (List.range n).map (fun i => c + i) := by
  have hL : L = c + (L - c) := by omega
  rw [hL, List.range_add]
  have hdl := List.drop_left (List.range c) ((List.range (L - c)).map (fun i => c + i))
  rw [List.length_range] at hdl
  rw [hdl, ← List.map_take, List.take_range]
  rw [min_eq_left (show n ≤ L - c by omega)]

theorem slice_clip_index (clips : List ClipForAssembly) (c n : ℕ)
    (hclips : clips.map (·.clip_index) = List.range clips.length)
    (h : c + n ≤ clips.length) :
    ((clips.drop c).take n).map (·.clip_index) = (List.range n).map (fun i => c + i) := by
  rw [List.map_take, List.map_drop, hclips, range_drop_take _ _ _ h]

theorem decideClip_clip_index (ci : ℕ) (align : Bool) (beats : List ℚ) (dlg : Bool)
    (cp : CutPointDecision) (clip : ClipForAssembly) (cur : ℚ) :
    (Backend.decideClip ci align beats dlg cp clip cur).1.clip_index = clip.clip_index :=
  rfl

theorem cutDecisionsGo_clip_index (ci : ℕ) (align : Bool) (beats : List ℚ)
    (classify : ℕ → DialogueClassifierResult) (cutO : ℕ → CutPointDecision) :
    ∀ (l : List ClipForAssembly) (cur : ℚ),
    (Backend.cutDecisionsGo ci align beats classify cutO l cur).map (·.clip_index) =
      l.map (·.clip_index) := by
  intro l
  induction l with
  | nil => intro cur; rfl
  | cons clip rest ih =>
    intro cur
    simp only [Backend.cutDecisionsGo, List.map_cons, decideClip_clip_index, ih]

theorem prepareClips_length (vas : List VideoAsset) :
    (Backend.prepareClips vas).length = vas.length := by
  simp [Backend.prepareClips]

theorem prepareClips_clip_index (vas : List VideoAsset) :
    (Backend.prepareClips vas).map (·.clip_index) = List.range vas.length := by
  rw [Backend.prepareClips, List.map_map]
  exact List.enum_map_fst vas

/-- Decomposition of one non-skipped `assembleStep` iteration. -/
theorem assembleStep_eq (clips : List ClipForAssembly) (boundaries : List ℚ)
    (beat_grid : List BeatInfo) (style : Option StyleProfile) (total : ℕ)
    (classify : ℕ → DialogueClassifierResult) (cutO : ℕ → CutPointDecision)
    (st : List ChunkDecisions × ℚ × ℕ) (idx : ℕ)
    (hrem : clips.length - st.2.2 ≠ 0) :
    ∃ (cd : ChunkDecisions) (cnt : ℕ),
      Backend.assembleStep clips boundaries beat_grid style total classify cutO st idx =
        (st.1 ++ [cd],
          (if cd.decisions = [] then st.2.1
            else listMaxD (cd.decisions.map (·.timeline_out_seconds)) st.2.1),
          st.2.2 + cnt) ∧
      cnt ≤ clips.length - st.2.2 ∧
      cd.decisions = Backend.cutDecisionsGo idx
        (match style with | some s => s.prefer_beat_alignment | none => true)
        ((beat_grid.map (·.time_seconds)).filter
          (fun t => decide (boundaries.getD idx 0 - 2 ≤ t ∧
            t ≤ boundaries.getD (idx + 1) 0 + 2)))
        classify cutO
        ((clips.drop st.2.2).take cnt)
        st.2.1 := by
  refine ⟨Backend.processChunk
      { chunk_index := idx
        chunk_start_seconds := boundaries.getD idx 0
        chunk_end_seconds := boundaries.getD (idx + 1) 0
        chunk_duration_seconds := boundaries.getD (idx + 1) 0 - boundaries.getD idx 0
        clips_in_chunk := (clips.drop st.2.2).take (Backend.allocCount
          (clips.length - st.2.2) (total - idx)
          (boundaries.getD (idx + 1) 0 - boundaries.getD idx 0)
          (match style with | some s => s.pacing.avg_clip_duration_seconds | none => 3))
        previous_chunk_end_clip_index :=
          if Backend.allocCount (clips.length - st.2.2) (total - idx)
              (boundaries.getD (idx + 1) 0 - boundaries.getD idx 0)
              (match style with | some s => s.pacing.avg_clip_duration_seconds | none => 3) <
            st.2.2 + Backend.allocCount (clips.length - st.2.2) (total - idx)
              (boundaries.getD (idx + 1) 0 - boundaries.getD idx 0)
              (match style with | some s => s.pacing.avg_clip_duration_seconds | none => 3)
          then some (st.2.2 + Backend.allocCount (clips.length - st.2.2) (total - idx)
              (boundaries.getD (idx + 1) 0 - boundaries.getD idx 0)
              (match style with | some s => s.pacing.avg_clip_duration_seconds | none => 3) -
            Backend.allocCount (clips.length - st.2.2) (total - idx)
              (boundaries.getD (idx + 1) 0 - boundaries.getD idx 0)
              (match style with | some s => s.pacing.avg_clip_duration_seconds | none => 3) - 1)
          else none }
      st.2.1 style
      ((beat_grid.map (·.time_seconds)).filter
        (fun t => decide (boundaries.getD idx 0 - 2 ≤ t ∧
          t ≤ boundaries.getD (idx + 1) 0 + 2)))
      classify cutO,
    Backend.allocCount (clips.length - st.2.2) (total - idx)
      (boundaries.getD (idx + 1) 0 - boundaries.getD idx 0)
      (match style with | some s => s.pacing.avg_clip_duration_seconds | none => 3),
    ?_, allocCount_le _ _ _ _, rfl⟩
  simp only [Backend.assembleStep]
  rw [if_neg hrem]

/-- The clip-index invariant of the chunk loop: the flattened decisions carry
exactly the clip indices `0, …, clip_cursor - 1`, and the cursor never exceeds
the pool. -/
theorem assembleStep_index_inv (clips : List ClipForAssembly) (boundaries : List ℚ)
    (beat_grid : List BeatInfo) (style : Option StyleProfile) (total : ℕ)
    (classify : ℕ → DialogueClassifierResult) (cutO : ℕ → CutPointDecision)
    (hclips : clips.map (·.clip_index) = List.range clips.length)
    (st : List ChunkDecisions × ℚ × ℕ) (idx : ℕ)
    (hmap : (st.1.map (·.decisions)).flatten.map (·.clip_index) = List.range st.2.2)
    (hle : st.2.2 ≤ clips.length) :
    (((Backend.assembleStep clips boundaries beat_grid style total classify cutO
        st idx).1.map (·.decisions)).flatten.map (·.clip_index) =
      List.range (Backend.assembleStep clips boundaries beat_grid style total
        classify cutO st idx).2.2) ∧
    (Backend.assembleStep clips boundaries beat_grid style total classify cutO
      st idx).2.2 ≤ clips.length := by
  by_cases hrem : clips.length - st.2.2 = 0
  · have hstep : Backend.assembleStep clips boundaries beat_grid style total
        classify cutO st idx = st := by
      simp only [Backend.assembleStep]
      rw [if_pos hrem]
    rw [hstep]
    exact ⟨hmap, hle⟩
  · obtain ⟨cd, cnt, hstep, hcnt, hcd⟩ := assembleStep_eq clips boundaries beat_grid
      style total classify cutO st idx hrem
    rw [hstep]
    constructor
    · rw [List.map_append, List.flatten_append, List.map_append, hmap]
      simp only [List.map_cons, List.map_nil, List.flatten_cons, List.flatten_nil,
        List.append_nil]
      rw [hcd, cutDecisionsGo_clip_index, slice_clip_index clips st.2.2 cnt hclips
        (by omega), List.range_add]
    · show st.2.2 + cnt ≤ clips.length
      omega

/-- C3 (amended): monotone, duplicate-free clip consumption never exceeding
the pool, with the per-chunk count `min(max(1, int(dur/target)), max(1,
remaining // remaining_chunks))` — the claim's cap `floor(remaining /
remaining_segments)` is itself floored at one in the code.  Chunks reached
with no clips remaining are skipped and contribute no decision group at
all. -/
theorem C3_budget_theorem (inp : AssemblyInput)
    (classify : ℕ → DialogueClassifierResult) (cutO : ℕ → CutPointDecision)
    (bp : TimelineBlueprint) (h : Backend.assemble inp classify cutO = .ok bp) :
    List.Pairwise (fun a b => a.clip_index < b.clip_index) bp.all_decisions ∧
    bp.all_decisions.length ≤ inp.manifest.video_assets.length ∧
    (∀ (r k : ℕ) (d t : ℚ), 0 < r →
      Backend.allocCount r k d t =
        min ((max 1 (pyInt (d / t))).toNat) (max 1 (r / k))) ∧
    (∀ (clips : List ClipForAssembly) (boundaries : List ℚ)
      (beat_grid : List BeatInfo) (style : Option StyleProfile)
      (total : ℕ) (st : List ChunkDecisions × ℚ × ℕ) (idx : ℕ),
      clips.length ≤ st.2.2 →
      Backend.assembleStep clips boundaries beat_grid style total classify cutO
        st idx = st) := by
  obtain ⟨music, rest, haud, hbp⟩ := assemble_ok_fields inp classify cutO bp h
  have hclips := prepareClips_clip_index inp.manifest.video_assets
  rw [← prepareClips_length inp.manifest.video_assets] at hclips
  have hfold := foldl_inv
    (Backend.assembleStep (Backend.prepareClips inp.manifest.video_assets)
      (Backend.chunkBoundaries inp.style_profile music.metronome_analysis.beat_grid
        music.metronome_analysis.chop_points music.duration_seconds)
      music.metronome_analysis.beat_grid inp.style_profile
      ((Backend.chunkBoundaries inp.style_profile music.metronome_analysis.beat_grid
        music.metronome_analysis.chop_points music.duration_seconds).length - 1)
      classify cutO)
    (fun st => ((st.1.map (·.decisions)).flatten.map (·.clip_index) =
        List.range st.2.2) ∧
      st.2.2 ≤ (Backend.prepareClips inp.manifest.video_assets).length)
    (List.range ((Backend.chunkBoundaries inp.style_profile
      music.metronome_analysis.beat_grid music.metronome_analysis.chop_points
      music.duration_seconds).length - 1))
    ([], 0, 0)
    (by refine ⟨by simp, by simp⟩)
    (fun s' a _ hs => assembleStep_index_inv _ _ _ _ _ classify cutO hclips s' a
      hs.1 hs.2)
  have hflat : bp.all_decisions.map (·.clip_index) =
      List.range ((Backend.assembleFold
        (Backend.prepareClips inp.manifest.video_assets)
        (Backend.chunkBoundaries inp.style_profile music.metronome_analysis.beat_grid
          music.metronome_analysis.chop_points music.duration_seconds)
        music.metronome_analysis.beat_grid inp.style_profile
        ((Backend.chunkBoundaries inp.style_profile music.metronome_analysis.beat_grid
          music.metronome_analysis.chop_points music.duration_seconds).length - 1)
        classify cutO).2.2) := by
    rw [hbp]
    exact hfold.1
  refine ⟨?_, ?_, fun r k d t hr => allocCount_eq r k d t hr, ?_⟩
  · have hpw := List.pairwise_lt_range ((Backend.assembleFold
      (Backend.prepareClips inp.manifest.video_assets)
      (Backend.chunkBoundaries inp.style_profile music.metronome_analysis.beat_grid
        music.metronome_analysis.chop_points music.duration_seconds)
      music.metronome_analysis.beat_grid inp.style_profile
      ((Backend.chunkBoundaries inp.style_profile music.metronome_analysis.beat_grid
        music.metronome_analysis.chop_points music.duration_seconds).length - 1)
      classify cutO).2.2)
    rw [← hflat] at hpw
    exact (List.pairwise_map).1 hpw
  · have hlen := congrArg List.length hflat
    rw [List.length_map, List.length_range] at hlen
    rw [hlen]
    rw [← prepareClips_length inp.manifest.video_assets]
    exact hfold.2
  · intro clips boundaries beat_grid style total st idx hle
    simp only [Backend.assembleStep]
    rw [if_pos (Nat.sub_eq_zero_of_le hle)]

/-- Witness for C3 on the two-clip fixture run; the skip conjunct is
instantiated at a state whose clip cursor has consumed the whole pool. -/
theorem C3_budget_witness :
    List.Pairwise (fun a b => a.clip_index < b.clip_index)
      (runBlueprint wInput classifyBroll cutSimple).all_decisions ∧
    (runBlueprint wInput classifyBroll cutSimple).all_decisions.length ≤
      wInput.manifest.video_assets.length ∧
    (∀ (r k : ℕ) (d t : ℚ), 0 < r →
      Backend.allocCount r k d t =
        min ((max 1 (pyInt (d / t))).toNat) (max 1 (r / k))) ∧
    Backend.assembleStep (Backend.prepareClips wInput.manifest.video_assets)
      [0, 4, 8] [] (some wStyleOff) 2 classifyBroll cutSimple ([], 0, 2) 0 =
      ([], 0, 2) := by
  have h := C3_budget_theorem wInput classifyBroll cutSimple
    (runBlueprint wInput classifyBroll cutSimple) (by with_unfolding_all rfl)
  exact ⟨h.1, h.2.1, h.2.2.1,
    h.2.2.2 (Backend.prepareClips wInput.manifest.video_assets)
      [0, 4, 8] [] (some wStyleOff) 2 ([], 0, 2) 0
      (by with_unfolding_all decide)⟩

/-- Counterexample for C3 as stated: with 1 clip remaining and 2 chunks left
(chunk duration 4 s, target 3 s), the code allocates 1 clip while the claim's
formula — capped by `floor(remaining / remaining_segments) = 0` — yields 0. -/
theorem C3_budget_counterexample :
    Backend.allocCount 1 2 4 3 = 1 ∧ claimAllocCount 1 2 4 3 = 0 ∧ (1 : ℕ) ≠ 0 := by
  refine ⟨?_, ?_, by decide⟩
  · with_unfolding_all decide
  · with_unfolding_all decide

/-! ### C1: the partition invariant -/

theorem foldl_max_of_chain (xs : List ℚ) : ∀ x : ℚ,
    List.Chain' (· ≤ ·) (x :: xs) → xs.foldl max x = xs.getLastD x := by
  induction xs with
  | nil => intro x _; rfl
  | cons y ys ih =>
    intro x h
    rw [List.foldl_cons, max_eq_right (List.chain'_cons.1 h).1, List.getLastD_cons]
    exact ih y (List.chain'_cons.1 h).2

theorem clampCutPoints_le (cp : CutPointDecision) (dur : ℚ)
    (h0 : 0 ≤ dur) (hin : cp.source_in_seconds ≤ dur) :
    (Backend.clampCutPoints cp dur).1 ≤ (Backend.clampCutPoints cp dur).2 := by
  have hmax : max 0 cp.source_in_seconds ≤ dur := max_le h0 hin
  simp only [Backend.clampCutPoints]
  split_ifs with hc
  · exact le_min hmax (by linarith)
  · exact le_of_lt (not_le.1 hc)

theorem decideClip_noalign_tin (ci : ℕ) (beats : List ℚ) (dlg : Bool)
    (cp : CutPointDecision) (clip : ClipForAssembly) (cur : ℚ) :
    (Backend.decideClip ci false beats dlg cp clip cur).1.timeline_in_seconds = cur := by
  simp [Backend.decideClip]

theorem decideClip_noalign_tout (ci : ℕ) (beats : List ℚ) (dlg : Bool)
    (cp : CutPointDecision) (clip : ClipForAssembly) (cur : ℚ) :
    (Backend.decideClip ci false beats dlg cp clip cur).1.timeline_out_seconds =
      cur + ((Backend.clampCutPoints cp clip.duration_seconds).2 -
        (Backend.clampCutPoints cp clip.duration_seconds).1) := by
  simp [Backend.decideClip]

theorem decideClip_noalign_snd (ci : ℕ) (beats : List ℚ) (dlg : Bool)
    (cp : CutPointDecision) (clip : ClipForAssembly) (cur : ℚ) :
    (Backend.decideClip ci false beats dlg cp clip cur).2 =
      (Backend.decideClip ci false beats dlg cp clip cur).1.timeline_out_seconds :=
  rfl

/-- The chunk fold with beat alignment off: the emitted decisions chain
exactly from the incoming cursor, have nonnegative spans, their out-times are
monotone from the cursor, and the last out-time is the last element of the
out-time list. -/
theorem cutDecisionsGo_noalign_spec (ci : ℕ) (beats : List ℚ)
    (classify : ℕ → DialogueClassifierResult) (cutO : ℕ → CutPointDecision) :
    ∀ (l : List ClipForAssembly) (cur : ℚ),
    (∀ clip ∈ l, 0 ≤ clip.duration_seconds ∧
      (cutO clip.clip_index).source_in_seconds ≤ clip.duration_seconds) →
    List.Chain' (fun a b => a.timeline_out_seconds = b.timeline_in_seconds)
      (Backend.cutDecisionsGo ci false beats classify cutO l cur) ∧
    (∀ d ∈ (Backend.cutDecisionsGo ci false beats classify cutO l cur).head?,
      d.timeline_in_seconds = cur) ∧
    (∀ d ∈ Backend.cutDecisionsGo ci false beats classify cutO l cur,
      d.timeline_in_seconds ≤ d.timeline_out_seconds) ∧
    (Backend.cutDecisionsGo ci false beats classify cutO l cur = [] ↔ l = []) ∧
    List.Chain' (· ≤ ·)
      (cur :: (Backend.cutDecisionsGo ci false beats classify cutO l cur).map
        (·.timeline_out_seconds)) ∧
    (∀ d ∈ (Backend.cutDecisionsGo ci false beats classify cutO l cur).getLast?,
      d.timeline_out_seconds =
        ((Backend.cutDecisionsGo ci false beats classify cutO l cur).map
          (·.timeline_out_seconds)).getLastD cur) := by
  intro l
  induction l with
  | nil =>
    intro cur _
    refine ⟨?_, ?_, ?_, ?_, ?_, ?_⟩ <;> simp [Backend.cutDecisionsGo]
  | cons clip rest ih =>
    intro cur hcut
    have hmem : clip ∈ clip :: rest := List.mem_cons_self _ _
    have hΔ : (Backend.clampCutPoints (cutO clip.clip_index) clip.duration_seconds).1 ≤
        (Backend.clampCutPoints (cutO clip.clip_index) clip.duration_seconds).2 :=
      clampCutPoints_le _ _ (hcut clip hmem).1 (hcut clip hmem).2
    simp only [Backend.cutDecisionsGo]
    obtain ⟨ihA, ihB, ihC, ihD, ihE, ihF⟩ := ih _ (fun c hc => hcut c (List.mem_cons_of_mem _ hc))
    refine ⟨?_, ?_, ?_, ?_, ?_, ?_⟩
    · rw [List.chain'_cons']
      refine ⟨?_, ihA⟩
      intro h hh
      rw [ihB h hh, decideClip_noalign_snd]
    · intro d hd
      simp only [List.head?_cons, Option.mem_some_iff] at hd
      rw [← hd, decideClip_noalign_tin]
    · intro d hd
      rcases List.mem_cons.1 hd with rfl | hd'
      · rw [decideClip_noalign_tin, decideClip_noalign_tout]
        linarith
      · exact ihC d hd'
    · simp
    · rw [List.map_cons, List.chain'_cons]
      constructor
      · rw [decideClip_noalign_tout]
        linarith
      · exact ihE
    · intro d hd
      cases hR : Backend.cutDecisionsGo ci false beats classify cutO rest
          (Backend.decideClip ci false beats
            (decide ((classify clip.clip_index).classification = ClipClassification.DIALOGUE))
            (cutO clip.clip_index) clip cur).2 with
      | nil =>
        rw [hR] at hd
        simp only [List.getLast?_singleton, Option.mem_some_iff] at hd
        rw [← hd]
        simp
      | cons r rs =>
        rw [hR] at hd
        rw [List.getLast?_cons_cons] at hd
        rw [List.map_cons, List.getLastD_cons]
        rw [← hR] at hd
        have := ihF d hd
        rw [this, hR]
        rw [decideClip_noalign_snd, decideClip_noalign_tout]

/-- Preservation of the partition invariant by one chunk iteration, when beat
alignment is off. -/
theorem assembleStep_partition_inv (clips : List ClipForAssembly)
    (boundaries : List ℚ) (beat_grid : List BeatInfo) (style : Option StyleProfile)
    (total : ℕ) (classify : ℕ → DialogueClassifierResult)
    (cutO : ℕ → CutPointDecision)
    (halign : (match style with
      | some s => s.prefer_beat_alignment
      | none => true) = false)
    (hcut : ∀ clip ∈ clips, 0 ≤ clip.duration_seconds ∧
      (cutO clip.clip_index).source_in_seconds ≤ clip.duration_seconds)
    (st : List ChunkDecisions × ℚ × ℕ) (idx : ℕ) (hI : partInvState st) :
    partInvState (Backend.assembleStep clips boundaries beat_grid style total
      classify cutO st idx) := by
  by_cases hrem : clips.length - st.2.2 = 0
  · have hstep : Backend.assembleStep clips boundaries beat_grid style total
        classify cutO st idx = st := by
      simp only [Backend.assembleStep]
      rw [if_pos hrem]
    rw [hstep]
    exact hI
  · obtain ⟨cd, cnt, hstep, hcnt, hcd⟩ := assembleStep_eq clips boundaries beat_grid
      style total classify cutO st idx hrem
    rw [halign] at hcd
    obtain ⟨iA, iB, iC, iD, iE⟩ := hI
    obtain ⟨hA, hB, hC, hD, hE, hF⟩ := cutDecisionsGo_noalign_spec idx
      ((beat_grid.map (·.time_seconds)).filter
        (fun t => decide (boundaries.getD idx 0 - 2 ≤ t ∧
          t ≤ boundaries.getD (idx + 1) 0 + 2)))
      classify cutO ((clips.drop st.2.2).take cnt) st.2.1
      (fun c hc => hcut c (List.drop_subset _ _ (List.take_subset _ _ hc)))
    rw [← hcd] at hA hB hC hD hE hF
    rw [hstep]
    have hflat : (((st.1 ++ [cd]).map (·.decisions)).flatten) =
        (st.1.map (·.decisions)).flatten ++ cd.decisions := by
      simp
    refine ⟨?_, ?_, ?_, ?_, ?_⟩
    · show List.Chain' _ (((st.1 ++ [cd]).map (·.decisions)).flatten)
      rw [hflat, List.chain'_append]
      refine ⟨iA, hA, ?_⟩
      intro x hx y hy
      rw [iD x hx, hB y hy]
    · show ∀ d ∈ (((st.1 ++ [cd]).map (·.decisions)).flatten).head?, _
      rw [hflat]
      by_cases hfe : (st.1.map (·.decisions)).flatten = []
      · rw [hfe, List.nil_append]
        intro d hd
        rw [hB d hd, iE hfe]
      · rw [List.head?_append_of_ne_nil _ hfe]
        exact iB
    · show ∀ d ∈ ((st.1 ++ [cd]).map (·.decisions)).flatten, _
      rw [hflat]
      intro d hd
      rcases List.mem_append.1 hd with h' | h'
      · exact iC d h'
      · exact hC d h'
    · show ∀ d ∈ (((st.1 ++ [cd]).map (·.decisions)).flatten).getLast?, _
      rw [hflat]
      by_cases hres : cd.decisions = []
      · rw [hres, List.append_nil]
        intro d hd
        rw [iD d hd]
        simp
      · rw [List.getLast?_append_of_ne_nil _ hres]
        intro d hd
        rw [hF d hd]
        show (cd.decisions.map (·.timeline_out_seconds)).getLastD st.2.1 =
          if cd.decisions = [] then st.2.1
          else listMaxD (cd.decisions.map (·.timeline_out_seconds)) st.2.1
        rw [if_neg hres]
        cases hres2 : cd.decisions with
        | nil => exact absurd hres2 hres
        | cons r rs =>
          rw [List.map_cons, List.getLastD_cons]
          rw [hres2, List.map_cons] at hE
          simp only [listMaxD]
          exact (foldl_max_of_chain _ _ (List.chain'_cons.1 hE).2).symm
    · show ((st.1 ++ [cd]).map (·.decisions)).flatten = [] → _
      rw [hflat]
      intro hempty
      rcases List.append_eq_nil.1 hempty with ⟨hf, hr⟩
      show (if cd.decisions = [] then st.2.1 else _) = 0
      rw [if_pos hr]
      exact iE hf

theorem chain_eq_to_chain_le (l : List CutDecision)
    (hc : List.Chain' (fun a b => a.timeline_out_seconds = b.timeline_in_seconds) l)
    (hm : ∀ d ∈ l, d.timeline_in_seconds ≤ d.timeline_out_seconds) :
    List.Chain' (fun a b => a.timeline_in_seconds ≤ b.timeline_in_seconds) l := by
  induction l with
  | nil => simp
  | cons a t ih =>
    cases t with
    | nil => simp
    | cons b t2 =>
      rw [List.chain'_cons] at hc ⊢
      refine ⟨?_, ih hc.2 (fun d hd => hm d (List.mem_cons_of_mem _ hd))⟩
      calc a.timeline_in_seconds ≤ a.timeline_out_seconds :=
            hm a (List.mem_cons_self _ _)
        _ = b.timeline_in_seconds := hc.1

/-- C1 (amended): for every successful run in which no decision is
beat-snapped — here: the style disables beat alignment — and whose oracle cut
points satisfy `source_in ≤ clip duration` (with nonnegative durations), the
flattened decisions are already sorted by `timeline_in`, adjacent decisions
satisfy `timeline_out = next timeline_in`, the first starts at `0` and the
last ends at `total_duration`: a gap-free, non-overlapping partition of
`[0, total_duration]`.  With beat alignment active the hard in-snap moves
`timeline_in` off the cursor and the invariant fails (see the
counterexample). -/
theorem C1_partition_theorem (inp : AssemblyInput)
    (classify : ℕ → DialogueClassifierResult) (cutO : ℕ → CutPointDecision)
    (bp : TimelineBlueprint) (s : StyleProfile)
    (hstyle : inp.style_profile = some s)
    (halign : s.prefer_beat_alignment = false)
    (hcut : ∀ clip ∈ Backend.prepareClips inp.manifest.video_assets,
      0 ≤ clip.duration_seconds ∧
      (cutO clip.clip_index).source_in_seconds ≤ clip.duration_seconds)
    (h : Backend.assemble inp classify cutO = .ok bp) :
    partitionOk bp := by
  obtain ⟨music, rest, haud, hbp⟩ := assemble_ok_fields inp classify cutO bp h
  have halign' : (match inp.style_profile with
      | some s => s.prefer_beat_alignment
      | none => true) = false := by
    rw [hstyle]
    exact halign
  have hfold := foldl_inv
    (Backend.assembleStep (Backend.prepareClips inp.manifest.video_assets)
      (Backend.chunkBoundaries inp.style_profile music.metronome_analysis.beat_grid
        music.metronome_analysis.chop_points music.duration_seconds)
      music.metronome_analysis.beat_grid inp.style_profile
      ((Backend.chunkBoundaries inp.style_profile music.metronome_analysis.beat_grid
        music.metronome_analysis.chop_points music.duration_seconds).length - 1)
      classify cutO)
    partInvState
    (List.range ((Backend.chunkBoundaries inp.style_profile
      music.metronome_analysis.beat_grid music.metronome_analysis.chop_points
      music.duration_seconds).length - 1))
    ([], 0, 0)
    (by refine ⟨?_, ?_, ?_, ?_, ?_⟩ <;> simp [partInvState])
    (fun s' a _ hs => assembleStep_partition_inv _ _ _ _ _ classify cutO
      halign' hcut s' a hs)
  obtain ⟨fA, fB, fC, fD, fE⟩ := hfold
  have hall : bp.all_decisions = ((Backend.assembleFold
      (Backend.prepareClips inp.manifest.video_assets)
      (Backend.chunkBoundaries inp.style_profile music.metronome_analysis.beat_grid
        music.metronome_analysis.chop_points music.duration_seconds)
      music.metronome_analysis.beat_grid inp.style_profile
      ((Backend.chunkBoundaries inp.style_profile music.metronome_analysis.beat_grid
        music.metronome_analysis.chop_points music.duration_seconds).length - 1)
      classify cutO).1.map (·.decisions)).flatten := by
    rw [hbp]
    rfl
  have htot : bp.total_duration_seconds = (Backend.assembleFold
      (Backend.prepareClips inp.manifest.video_assets)
      (Backend.chunkBoundaries inp.style_profile music.metronome_analysis.beat_grid
        music.metronome_analysis.chop_points music.duration_seconds)
      music.metronome_analysis.beat_grid inp.style_profile
      ((Backend.chunkBoundaries inp.style_profile music.metronome_analysis.beat_grid
        music.metronome_analysis.chop_points music.duration_seconds).length - 1)
      classify cutO).2.1 := by
    rw [hbp]
  haveI : IsTrans CutDecision
      (fun a b => a.timeline_in_seconds ≤ b.timeline_in_seconds) :=
    ⟨fun _ _ _ => le_trans⟩
  refine ⟨?_, ?_, ?_, ?_, ?_⟩
  · rw [hall]
    exact List.chain'_iff_pairwise.1 (chain_eq_to_chain_le _ fA fC)
  · rw [hall]
    exact fA
  · rw [hall]
    exact fB
  · rw [hall, htot]
    exact fD
  · rw [hall, htot]
    exact fE

/-- Witness for C1 on the two-clip fixture with beat alignment disabled. -/
theorem C1_partition_witness :
    partitionOk (runBlueprint wInput classifyBroll cutSimple) :=
  C1_partition_theorem wInput classifyBroll cutSimple
    (runBlueprint wInput classifyBroll cutSimple) wStyleOff rfl rfl
    (by with_unfolding_all decide) (by with_unfolding_all rfl)

/-- Counterexample for C1 as stated: with beat alignment on (the default) and
beats at 1 s and 4 s, the single B-roll decision is snapped to start at
`timeline_in = 1`, so the sorted decisions do not start at `0` and do not
partition `[0, total_duration]`. -/
theorem C1_partition_counterexample :
    (runBlueprint snapInput classifyBroll cutSimple).all_decisions.map
      (fun d => (d.timeline_in_seconds, d.timeline_out_seconds)) = [(1, 4)] ∧
    ¬ partitionOk (runBlueprint snapInput classifyBroll cutSimple) := by
  have hmap : (runBlueprint snapInput classifyBroll cutSimple).all_decisions.map
      (fun d => (d.timeline_in_seconds, d.timeline_out_seconds)) = [(1, 4)] := by
    with_unfolding_all decide
  refine ⟨hmap, ?_⟩
  intro hp
  have hhead : (runBlueprint snapInput classifyBroll cutSimple).all_decisions.head?.map
      (·.timeline_in_seconds) = some 1 := by
    with_unfolding_all decide
  obtain ⟨-, -, h0, -, -⟩ := hp
  cases hh : (runBlueprint snapInput classifyBroll cutSimple).all_decisions.head? with
  | none =>
    rw [hh] at hhead
    exact absurd hhead (by simp)
  | some d =>
    rw [hh] at hhead
    simp only [Option.map_some'] at hhead
    have h1 : d.timeline_in_seconds = 1 := by
      injection hhead
    have h2 : d.timeline_in_seconds = 0 := h0 d (by rw [hh]; rfl)
    rw [h1] at h2
    exact absurd h2 (by norm_num)

/-! ### C7: audio ducking segmenter -/

/-- Reduction of the merge fold on an overlapping head. -/
theorem mergeLoop_cons_merge (cs ce s e : ℚ) (rest : List (ℚ × ℚ)) (h : s ≤ ce) :
    Executor.mergeLoop cs ce ((s, e) :: rest) = Executor.mergeLoop cs (max ce e) rest := by
  simp only [Executor.mergeLoop]
  rw [if_pos h]

/-- Reduction of the merge fold on a disjoint head. -/
theorem mergeLoop_cons_emit (cs ce s e : ℚ) (rest : List (ℚ × ℚ)) (h : ¬ s ≤ ce) :
    Executor.mergeLoop cs ce ((s, e) :: rest) = (cs, ce) :: Executor.mergeLoop s e rest := by
  simp only [Executor.mergeLoop]
  rw [if_neg h]

/-- The merge fold turns a start-sorted list of well-formed sections (each with
start ≤ end, all starting at or after the open section) into well-formed,
strictly separated sections all starting at or after `cs`. -/
theorem mergeLoop_wf : ∀ (rest : List (ℚ × ℚ)) (cs ce : ℚ),
    cs ≤ ce →
    (∀ w ∈ rest, w.1 ≤ w.2) →
    List.Pairwise (fun a b : ℚ × ℚ => a.1 ≤ b.1) rest →
    (∀ w ∈ rest, cs ≤ w.1) →
    (∀ w ∈ Executor.mergeLoop cs ce rest, w.1 ≤ w.2) ∧
    (∀ w ∈ Executor.mergeLoop cs ce rest, cs ≤ w.1) ∧
    List.Pairwise (fun a b : ℚ × ℚ => a.2 < b.1) (Executor.mergeLoop cs ce rest) := by
  intro rest
  induction rest with
  | nil =>
    intro cs ce h1 _ _ _
    refine ⟨?_, ?_, ?_⟩
    · intro w hw
      simp only [Executor.mergeLoop, List.mem_singleton] at hw
      subst hw
      exact h1
    · intro w hw
      simp only [Executor.mergeLoop, List.mem_singleton] at hw
      subst hw
      exact le_refl _
    · simp only [Executor.mergeLoop]
      exact List.pairwise_singleton _ _
  | cons hd rest ih =>
    obtain ⟨s, e⟩ := hd
    intro cs ce h1 hwf hpw hge
    have hse : s ≤ e := hwf (s, e) (List.mem_cons_self _ _)
    have hcss : cs ≤ s := hge (s, e) (List.mem_cons_self _ _)
    have hwf' : ∀ w ∈ rest, w.1 ≤ w.2 := fun w hw => hwf w (List.mem_cons_of_mem _ hw)
    have hhd := (List.pairwise_cons.1 hpw).1
    have hpw' := (List.pairwise_cons.1 hpw).2
    by_cases hm : s ≤ ce
    · rw [mergeLoop_cons_merge cs ce s e rest hm]
      exact ih cs (max ce e) (le_trans h1 (le_max_left _ _)) hwf' hpw'
        (fun w hw => hge w (List.mem_cons_of_mem _ hw))
    · rw [mergeLoop_cons_emit cs ce s e rest hm]
      have hce : ce < s := lt_of_not_le hm
      obtain ⟨iw, istart, ipw⟩ := ih s e hse hwf' hpw' (fun w hw => hhd w hw)
      refine ⟨?_, ?_, ?_⟩
      · intro w hw
        rcases List.mem_cons.1 hw with rfl | hw'
        · exact h1
        · exact iw w hw'
      · intro w hw
        rcases List.mem_cons.1 hw with rfl | hw'
        · exact le_refl _
        · exact le_trans hcss (istart w hw')
      · exact List.pairwise_cons.2 ⟨fun w hw => lt_of_lt_of_le hce (istart w hw), ipw⟩

/-- The merged dialogue sections are well formed and strictly separated. -/
theorem merged_wf (windows : List (ℚ × ℚ)) (hw : ∀ w ∈ windows, w.1 ≤ w.2) :
    (∀ w ∈ Executor.mergeOverlappingSections windows, w.1 ≤ w.2) ∧
    List.Pairwise (fun a b : ℚ × ℚ => a.2 < b.1)
      (Executor.mergeOverlappingSections windows) := by
  have hmem : ∀ w ∈ windows.mergeSort (fun a b => decide (a.1 ≤ b.1)), w.1 ≤ w.2 :=
    fun w hw' => hw w ((List.mergeSort_perm windows _).mem_iff.1 hw')
  have hsorted : List.Pairwise (fun a b : ℚ × ℚ => a.1 ≤ b.1)
      (windows.mergeSort (fun a b => decide (a.1 ≤ b.1))) := by
    have h := @List.sorted_mergeSort (ℚ × ℚ) (fun a b => decide (a.1 ≤ b.1))
      (fun a b c hab hbc => decide_eq_true
        (le_trans (of_decide_eq_true hab) (of_decide_eq_true hbc)))
      (fun a b => by
        rcases le_total a.1 b.1 with h | h
        · simp [h]
        · simp [h])
      windows
    exact h.imp (fun h' => of_decide_eq_true h')
  cases hws : windows.mergeSort (fun a b => decide (a.1 ≤ b.1)) with
  | nil =>
    constructor
    · intro w hw'
      simp only [Executor.mergeOverlappingSections, hws] at hw'
      exact absurd hw' (List.not_mem_nil _)
    · simp only [Executor.mergeOverlappingSections, hws]
      exact List.Pairwise.nil
  | cons hd rest =>
    obtain ⟨s, e⟩ := hd
    rw [hws] at hmem hsorted
    have hred : Executor.mergeOverlappingSections windows = Executor.mergeLoop s e rest := by
      simp only [Executor.mergeOverlappingSections, hws]
    rw [hred]
    obtain ⟨a, _, c⟩ := mergeLoop_wf rest s e
      (hmem (s, e) (List.mem_cons_self _ _))
      (fun w hw' => hmem w (List.mem_cons_of_mem _ hw'))
      ((List.pairwise_cons.1 hsorted).2)
      (fun w hw' => (List.pairwise_cons.1 hsorted).1 w hw')
    exact ⟨a, c⟩

/-- Reduction of the ducking walk on a section lying outside the track. -/
theorem duckLoop_cons_skip (aS aE s e : ℚ) (rest : List (ℚ × ℚ)) (cp : ℚ)
    (h : aE ≤ max s aS ∨ min e aE ≤ aS) :
    Executor.duckLoop aS aE ((s, e) :: rest) cp = Executor.duckLoop aS aE rest cp := by
  simp only [Executor.duckLoop]
  rw [if_pos h]

/-- Reduction of the ducking walk on a section intersecting the track. -/
theorem duckLoop_cons_keep (aS aE s e : ℚ) (rest : List (ℚ × ℚ)) (cp : ℚ)
    (h1 : max s aS < aE) (h2 : aS < min e aE) :
    Executor.duckLoop aS aE ((s, e) :: rest) cp =
      ((if cp < max s aS then [(cp, max s aS, 1)] else []) ++
        (if max s aS < min e aE then [(max s aS, min e aE, (0.3 : ℚ))] else [])) ++
        Executor.duckLoop aS aE rest (min e aE) := by
  simp only [Executor.duckLoop]
  rw [if_neg (not_or.2 ⟨not_le.2 h1, not_le.2 h2⟩)]

/-- Main specification of the ducking walk: started at cursor `cp` inside the
track on well-formed, strictly separated sections that all end at or after the
cursor, it tiles `[cp, aE]` exactly, every emitted segment is nonempty and lies
inside the track, every `0.3`-volume segment is a clipped dialogue section, and
every full-volume segment is disjoint from all the clipped sections. -/
theorem duckLoop_spec (aS aE : ℚ) : ∀ (l : List (ℚ × ℚ)) (cp : ℚ),
    aS ≤ cp → cp ≤ aE →
    (∀ w ∈ l, w.1 ≤ w.2) →
    List.Pairwise (fun a b : ℚ × ℚ => a.2 < b.1) l →
    (∀ w ∈ l, cp ≤ max w.1 aS) →
    tilesFromTo cp aE (Executor.duckLoop aS aE l cp) ∧
    (∀ seg ∈ Executor.duckLoop aS aE l cp,
      cp ≤ seg.1 ∧ seg.1 < seg.2.1 ∧ seg.2.1 ≤ aE ∧
      ((seg.2.2 = 0.3 ∧ ∃ w ∈ l, seg.1 = max w.1 aS ∧ seg.2.1 = min w.2 aE) ∨
       (seg.2.2 = 1 ∧ ∀ w ∈ l, min w.2 aE ≤ seg.1 ∨ seg.2.1 ≤ max w.1 aS))) := by
  intro l
  induction l with
  | nil =>
    intro cp hacp hcpe _ _ _
    constructor
    · by_cases hlt : cp < aE
      · show tilesFromTo cp aE (if cp < aE then [(cp, aE, 1)] else [])
        rw [if_pos hlt]
        exact ⟨rfl, hcpe, rfl⟩
      · show tilesFromTo cp aE (if cp < aE then [(cp, aE, 1)] else [])
        rw [if_neg hlt]
        exact le_antisymm hcpe (le_of_not_lt hlt)
    · intro seg hseg
      by_cases hlt : cp < aE
      · rw [show Executor.duckLoop aS aE [] cp = if cp < aE then [(cp, aE, 1)] else [] from rfl,
          if_pos hlt, List.mem_singleton] at hseg
        subst hseg
        exact ⟨le_refl _, hlt, le_refl _,
          Or.inr ⟨rfl, fun w hw => absurd hw (List.not_mem_nil _)⟩⟩
      · rw [show Executor.duckLoop aS aE [] cp = if cp < aE then [(cp, aE, 1)] else [] from rfl,
          if_neg hlt] at hseg
        exact absurd hseg (List.not_mem_nil _)
  | cons hd rest ih =>
    obtain ⟨s, e⟩ := hd
    intro cp hacp hcpe hwf hpw hstart
    have hse : s ≤ e := hwf (s, e) (List.mem_cons_self _ _)
    have hcpds : cp ≤ max s aS := hstart (s, e) (List.mem_cons_self _ _)
    have hwf' : ∀ w ∈ rest, w.1 ≤ w.2 := fun w hw => hwf w (List.mem_cons_of_mem _ hw)
    have hhd := (List.pairwise_cons.1 hpw).1
    have hpw' := (List.pairwise_cons.1 hpw).2
    by_cases hskip : aE ≤ max s aS ∨ min e aE ≤ aS
    · rw [duckLoop_cons_skip aS aE s e rest cp hskip]
      obtain ⟨ihT, ihS⟩ := ih cp hacp hcpe hwf' hpw'
        (fun w hw => hstart w (List.mem_cons_of_mem _ hw))
      refine ⟨ihT, ?_⟩
      intro seg hseg
      obtain ⟨h1, h2, h3, h4⟩ := ihS seg hseg
      refine ⟨h1, h2, h3, ?_⟩
      rcases h4 with ⟨hv, w', hw', hws⟩ | ⟨hv, hall⟩
      · exact Or.inl ⟨hv, w', List.mem_cons_of_mem _ hw', hws⟩
      · refine Or.inr ⟨hv, ?_⟩
        intro w' hw'
        rcases List.mem_cons.1 hw' with rfl | hw''
        · rcases hskip with hA | hB
          · exact Or.inr (le_trans h3 hA)
          · exact Or.inl (le_trans hB (le_trans hacp h1))
        · exact hall w' hw''
    · push_neg at hskip
      obtain ⟨hds, hde⟩ := hskip
      have haSe : aS ≤ e := le_of_lt (lt_of_lt_of_le hde (min_le_left e aE))
      have hdsde : max s aS ≤ min e aE := le_min (max_le hse haSe) (le_of_lt hds)
      rw [duckLoop_cons_keep aS aE s e rest cp hds hde]
      obtain ⟨ihT, ihS⟩ := ih (min e aE) (le_of_lt hde) (min_le_right e aE) hwf' hpw'
        (fun w hw => le_trans (le_trans (min_le_left e aE) (le_of_lt (hhd w hw)))
          (le_max_left _ _))
      constructor
      · by_cases h1 : cp < max s aS
        · rw [if_pos h1]
          by_cases h2 : max s aS < min e aE
          · rw [if_pos h2]
            simp only [List.cons_append, List.nil_append]
            exact ⟨rfl, le_of_lt h1, rfl, hdsde, ihT⟩
          · rw [if_neg h2]
            have hdd : max s aS = min e aE := le_antisymm hdsde (le_of_not_lt h2)
            simp only [List.append_nil, List.singleton_append]
            exact ⟨rfl, le_of_lt h1, hdd ▸ ihT⟩
        · have hcpd : cp = max s aS := le_antisymm hcpds (le_of_not_lt h1)
          rw [if_neg h1]
          by_cases h2 : max s aS < min e aE
          · rw [if_pos h2]
            simp only [List.nil_append, List.singleton_append]
            exact ⟨hcpd.symm, hcpd ▸ hdsde, ihT⟩
          · rw [if_neg h2]
            simp only [List.nil_append]
            have hdd : max s aS = min e aE := le_antisymm hdsde (le_of_not_lt h2)
            rw [hcpd, hdd]
            exact ihT
      · intro seg hseg
        rcases List.mem_append.1 hseg with hseg' | hrec
        · rcases List.mem_append.1 hseg' with hfull | hduck
          · by_cases h1 : cp < max s aS
            · rw [if_pos h1, List.mem_singleton] at hfull
              subst hfull
              refine ⟨le_refl _, h1, le_of_lt hds, Or.inr ⟨rfl, ?_⟩⟩
              intro w' hw'
              rcases List.mem_cons.1 hw' with rfl | hw''
              · exact Or.inr (le_refl _)
              · refine Or.inr (le_trans hdsde (le_trans (min_le_left e aE)
                  (le_trans (le_of_lt (hhd w' hw'')) (le_max_left _ _))))
            · rw [if_neg h1] at hfull
              exact absurd hfull (List.not_mem_nil _)
          · by_cases h2 : max s aS < min e aE
            · rw [if_pos h2, List.mem_singleton] at hduck
              subst hduck
              exact ⟨hcpds, h2, min_le_right e aE,
                Or.inl ⟨rfl, (s, e), List.mem_cons_self _ _, rfl, rfl⟩⟩
            · rw [if_neg h2] at hduck
              exact absurd hduck (List.not_mem_nil _)
        · obtain ⟨h1, h2, h3, h4⟩ := ihS seg hrec
          refine ⟨le_trans (le_trans hcpds hdsde) h1, h2, h3, ?_⟩
          rcases h4 with ⟨hv, w', hw', hws⟩ | ⟨hv, hall⟩
          · exact Or.inl ⟨hv, w', List.mem_cons_of_mem _ hw', hws⟩
          · refine Or.inr ⟨hv, ?_⟩
            intro w' hw'
            rcases List.mem_cons.1 hw' with rfl | hw''
            · exact Or.inl h1
            · exact hall w' hw''

/-- Sections lying entirely outside `[aS, aE]` merge to sections lying entirely
outside `[aS, aE]`. -/
theorem mergeLoop_outside (aS aE : ℚ) (hlt : aS < aE) :
    ∀ (rest : List (ℚ × ℚ)) (cs ce : ℚ),
    (aE ≤ cs ∨ ce ≤ aS) →
    (∀ w ∈ rest, aE ≤ w.1 ∨ w.2 ≤ aS) →
    ∀ w ∈ Executor.mergeLoop cs ce rest, aE ≤ w.1 ∨ w.2 ≤ aS := by
  intro rest
  induction rest with
  | nil =>
    intro cs ce hcur _ w hw
    simp only [Executor.mergeLoop, List.mem_singleton] at hw
    subst hw
    exact hcur
  | cons hd rest ih =>
    obtain ⟨s, e⟩ := hd
    intro cs ce hcur hout w hw
    have hh : aE ≤ s ∨ e ≤ aS := hout (s, e) (List.mem_cons_self _ _)
    have hout' : ∀ w ∈ rest, aE ≤ w.1 ∨ w.2 ≤ aS :=
      fun w hw' => hout w (List.mem_cons_of_mem _ hw')
    by_cases hm : s ≤ ce
    · rw [mergeLoop_cons_merge cs ce s e rest hm] at hw
      rcases hcur with hA | hB
      · exact ih cs (max ce e) (Or.inl hA) hout' w hw
      · rcases hh with hA' | hB'
        · exact absurd (lt_of_le_of_lt (le_trans hA' (le_trans hm hB)) hlt)
            (lt_irrefl aE)
        · exact ih cs (max ce e) (Or.inr (max_le hB hB')) hout' w hw
    · rw [mergeLoop_cons_emit cs ce s e rest hm] at hw
      rcases List.mem_cons.1 hw with rfl | hw'
      · exact hcur
      · exact ih s e hh hout' w hw'

/-- If every dialogue window lies entirely outside the track, so does every
merged section. -/
theorem merged_outside (aS aE : ℚ) (hlt : aS < aE) (windows : List (ℚ × ℚ))
    (hout : ∀ w ∈ windows, aE ≤ w.1 ∨ w.2 ≤ aS) :
    ∀ w ∈ Executor.mergeOverlappingSections windows, aE ≤ w.1 ∨ w.2 ≤ aS := by
  have hmem : ∀ w ∈ windows.mergeSort (fun a b => decide (a.1 ≤ b.1)),
      aE ≤ w.1 ∨ w.2 ≤ aS :=
    fun w hw' => hout w ((List.mergeSort_perm windows _).mem_iff.1 hw')
  intro w hw
  cases hws : windows.mergeSort (fun a b => decide (a.1 ≤ b.1)) with
  | nil =>
    simp only [Executor.mergeOverlappingSections, hws] at hw
    exact absurd hw (List.not_mem_nil _)
  | cons hd rest =>
    obtain ⟨s, e⟩ := hd
    rw [hws] at hmem
    have hred : Executor.mergeOverlappingSections windows =
        Executor.mergeLoop s e rest := by
      simp only [Executor.mergeOverlappingSections, hws]
    rw [hred] at hw
    exact mergeLoop_outside aS aE hlt rest s e
      (hmem (s, e) (List.mem_cons_self _ _))
      (fun w' hw' => hmem w' (List.mem_cons_of_mem _ hw')) w hw

/-- When every merged section lies entirely outside the track, the walk skips
them all and reduces to its base case. -/
theorem duckLoop_all_skip (aS aE : ℚ) :
    ∀ (l : List (ℚ × ℚ)) (cp : ℚ),
    (∀ w ∈ l, aE ≤ w.1 ∨ w.2 ≤ aS) →
    Executor.duckLoop aS aE l cp = Executor.duckLoop aS aE [] cp := by
  intro l
  induction l with
  | nil => intro cp _; rfl
  | cons hd rest ih =>
    obtain ⟨s, e⟩ := hd
    intro cp hout
    have hh : aE ≤ s ∨ e ≤ aS := hout (s, e) (List.mem_cons_self _ _)
    have hsk : aE ≤ max s aS ∨ min e aE ≤ aS := by
      rcases hh with hA | hB
      · exact Or.inl (le_trans hA (le_max_left _ _))
      · exact Or.inr (le_trans (min_le_left _ _) hB)
    rw [duckLoop_cons_skip aS aE s e rest cp hsk]
    exact ih cp (fun w hw => hout w (List.mem_cons_of_mem _ hw))

/-- C7: for every audio track with a nonempty source window and every list of
well-formed dialogue windows, the ducking segmenter's segments exactly tile
`[timeline_in, timeline_in + (source_out - source_in)]` with no gaps or
overlaps; every segment is nonempty with volume `0.3` or `1`; every
`0.3`-volume segment is exactly a merged dialogue window clipped to the track;
every full-volume segment is disjoint from all clipped merged windows; and
when no dialogue window intersects the track, exactly one full-volume segment
spanning the whole track is emitted. -/
theorem C7_ducking_theorem (audio : AudioTrackInfo) (windows : List (ℚ × ℚ))
    (hw : ∀ w ∈ windows, w.1 ≤ w.2)
    (hd : audio.source_in_seconds < audio.source_out_seconds) :
    tilesFromTo (Executor.audioStart audio) (Executor.audioEnd audio)
      (Executor.buildDuckSegments audio windows) ∧
    (∀ seg ∈ Executor.buildDuckSegments audio windows,
      seg.1 < seg.2.1 ∧ (seg.2.2 = 0.3 ∨ seg.2.2 = 1)) ∧
    (∀ seg ∈ Executor.buildDuckSegments audio windows, seg.2.2 = 0.3 →
      ∃ w ∈ Executor.mergeOverlappingSections windows,
        seg.1 = max w.1 (Executor.audioStart audio) ∧
        seg.2.1 = min w.2 (Executor.audioEnd audio)) ∧
    (∀ seg ∈ Executor.buildDuckSegments audio windows, seg.2.2 = 1 →
      ∀ w ∈ Executor.mergeOverlappingSections windows,
        min w.2 (Executor.audioEnd audio) ≤ seg.1 ∨
        seg.2.1 ≤ max w.1 (Executor.audioStart audio)) ∧
    ((∀ w ∈ windows, Executor.audioEnd audio ≤ w.1 ∨
        w.2 ≤ Executor.audioStart audio) →
      Executor.buildDuckSegments audio windows =
        [(Executor.audioStart audio, Executor.audioEnd audio, 1)]) := by
  have hlt : Executor.audioStart audio < Executor.audioEnd audio := by
    unfold Executor.audioStart Executor.audioEnd
    linarith
  obtain ⟨hmw, hmp⟩ := merged_wf windows hw
  obtain ⟨hT, hS⟩ := duckLoop_spec (Executor.audioStart audio)
    (Executor.audioEnd audio) (Executor.mergeOverlappingSections windows)
    (Executor.audioStart audio) (le_refl _) (le_of_lt hlt) hmw hmp
    (fun w _ => le_max_right _ _)
  have hnil : Executor.duckLoop (Executor.audioStart audio)
      (Executor.audioEnd audio) (Executor.mergeOverlappingSections windows)
      (Executor.audioStart audio) ≠ [] := by
    intro h0
    rw [h0] at hT
    exact (ne_of_lt hlt) hT
  have hbd : Executor.buildDuckSegments audio windows =
      Executor.duckLoop (Executor.audioStart audio) (Executor.audioEnd audio)
        (Executor.mergeOverlappingSections windows)
        (Executor.audioStart audio) := by
    simp only [Executor.buildDuckSegments]
    rw [if_neg hnil]
  refine ⟨?_, ?_, ?_, ?_, ?_⟩
  · rw [hbd]
    exact hT
  · rw [hbd]
    intro seg hseg
    obtain ⟨-, h2, -, h4⟩ := hS seg hseg
    refine ⟨h2, ?_⟩
    rcases h4 with ⟨hv, -⟩ | ⟨hv, -⟩
    · exact Or.inl hv
    · exact Or.inr hv
  · rw [hbd]
    intro seg hseg hv
    obtain ⟨-, -, -, h4⟩ := hS seg hseg
    rcases h4 with ⟨-, w', hw', hws⟩ | ⟨hv1, -⟩
    · exact ⟨w', hw', hws⟩
    · rw [hv] at hv1
      norm_num at hv1
  · rw [hbd]
    intro seg hseg hv
    obtain ⟨-, -, -, h4⟩ := hS seg hseg
    rcases h4 with ⟨hv0, -⟩ | ⟨-, hall⟩
    · rw [hv] at hv0
      norm_num at hv0
    · exact hall
  · intro hout
    have hmo : ∀ w ∈ Executor.mergeOverlappingSections windows,
        Executor.audioEnd audio ≤ w.1 ∨ w.2 ≤ Executor.audioStart audio :=
      merged_outside (Executor.audioStart audio) (Executor.audioEnd audio)
        hlt windows hout
    have hsegs : Executor.duckLoop (Executor.audioStart audio)
        (Executor.audioEnd audio) (Executor.mergeOverlappingSections windows)
        (Executor.audioStart audio) =
        [(Executor.audioStart audio, Executor.audioEnd audio, 1)] := by
      rw [duckLoop_all_skip (Executor.audioStart audio)
        (Executor.audioEnd audio) (Executor.mergeOverlappingSections windows)
        (Executor.audioStart audio) hmo]
      show (if Executor.audioStart audio < Executor.audioEnd audio then
        [(Executor.audioStart audio, Executor.audioEnd audio, 1)] else []) =
        [(Executor.audioStart audio, Executor.audioEnd audio, 1)]
      rw [if_pos hlt]
    rw [hbd, hsegs]

/-- Witness for C7: a 12 s music bed with one dialogue window `(3, 5)` is
tiled as `[(0, 3, 1), (3, 5, 0.3), (5, 12, 1)]`. -/
theorem C7_ducking_witness :
    tilesFromTo (Executor.audioStart wTrack) (Executor.audioEnd wTrack)
      (Executor.buildDuckSegments wTrack [(3, 5)]) ∧
    Executor.buildDuckSegments wTrack [(3, 5)] =
      [(0, 3, 1), (3, 5, 0.3), (5, 12, 1)] := by
  refine ⟨(C7_ducking_theorem wTrack [(3, 5)]
    (by with_unfolding_all decide) (by with_unfolding_all decide)).1, ?_⟩
  with_unfolding_all decide

end Reflect
